import Mathlib

/-!
# Valdi descriptor database: embedding and verified properties

A shallow embedding of `valdi_protobuf/DescriptorDatabase.cpp` and of the
descriptor/namespace accessors of
`valdi/runtime/JavaScript/Modules/ProtobufMessageFactory.cpp`.

Conventions of the embedding:

* `size_t` and `uint64_t` are 64 bits wide, `uint32_t` and `int` 32 bits wide;
  machine arithmetic is written over `Nat`/`Int` with the reduction made explicit
  where the source can wrap.
* A pointer is the address it holds (a `Nat`); a descriptor handle
  (`const google::protobuf::Descriptor*`) is `Option Nat`, `none` being `nullptr`.
* External collaborators (the protobuf decoder, the `DescriptorDatabaseBuilder`
  whose implementation file is not part of the sources, the reflective
  `DescriptorPool`) are fields of an environment `Env`; every call made into them
  is logged in a trace of `Event`s.
* An index handed to a protobuf accessor is narrowed as the source narrows it
  (`static_cast<int>`); a read outside a table or vector is undefined in the
  source and is `none` here.
* A call ends in an `Outcome`: it returns, it stops on a failed `assert`, or it
  performs an out-of-range element access (undefined behaviour in the source).
-/

namespace Valdi

/-! ## Bytes -/

/-- One byte of a buffer. -/
abbrev Byte := Fin 256

/-- A view over a byte buffer: `data` is the address of its first byte
(`BytesView::data()`), `bytes` the `size()` bytes that the view covers. -/
structure BytesView where
  data : Nat
  bytes : List Byte
deriving DecidableEq, Repr

/-- Number of bytes of the view, `BytesView::size()`. -/
def BytesView.size (v : BytesView) : Nat := v.bytes.length

/-- Modelled from the spec: `BytesView::subrange(start, length)` belongs to
`valdi_core/cpp/Utils/Bytes.hpp`, which is not among the sources. The spec calls
its result "only the body region": the view of `length` bytes that starts `start`
bytes into this view. -/
def BytesView.subrange (v : BytesView) (start length : Nat) : BytesView :=
  { data := v.data + start, bytes := (v.bytes.drop start).take length }

/-- The 8-byte signature `"VALDIPRO"` (ASCII). -/
def signature : List Byte := [86, 65, 76, 68, 73, 80, 82, 79]

/-- The byte at offset `i`, used only at offsets below `size()`. -/
def BytesView.byteAt (v : BytesView) (i : Nat) : Nat := (v.bytes.getD i 0).val

/-- The `uint32_t` stored at offset `off`, read as
`*reinterpret_cast<const uint32_t*>(data.data() + off)` on a little-endian host. -/
def BytesView.readU32 (v : BytesView) (off : Nat) : Nat :=
  v.byteAt off + 256 * v.byteAt (off + 1) + 65536 * v.byteAt (off + 2)
    + 16777216 * v.byteAt (off + 3)

/-- Subtraction of `size_t` values: the difference modulo `2 ^ 64`. -/
def sizeSub (a b : Nat) : Nat := (a + 2 ^ 64 - b % 2 ^ 64) % 2 ^ 64

/-- The conversion `static_cast<int>(n)` of a `uint32_t`. -/
def toInt32 (n : Nat) : Int :=
  if n % 2 ^ 32 < 2 ^ 31 then (n % 2 ^ 32 : Nat) else ((n % 2 ^ 32 : Nat) : Int) - 2 ^ 32

/-! ## The index (`DescriptorIndex.proto`) -/

/-- A `DescriptorIndex::File` message. -/
structure File where
  file_name : String
  data_offset : Nat
  length : Nat
deriving DecidableEq, Repr

/-- A `DescriptorIndex::Symbol` message. -/
structure Symbol where
  full_name : String
  file_index : Nat
deriving DecidableEq, Repr

/-- A `DescriptorIndex::Package` message. -/
structure Package where
  full_name : String
  symbol_indexes : List Nat
  nested_package_indexes : List Nat
deriving DecidableEq, Repr

/-- The `DescriptorIndex::DescriptorIndex` message: three repeated fields. -/
structure DescriptorIndex where
  files : List File
  symbols : List Symbol
  packages : List Package
deriving DecidableEq, Repr

/-- A default-constructed (empty) index. -/
def DescriptorIndex.empty : DescriptorIndex := ⟨[], [], []⟩

/-! ## Hash maps, error tracker, events -/

/-- A `FlatMap<std::string, size_t>`: the finite map it denotes. -/
def FlatMap := String → Option Nat

/-- The map after `clear()`. -/
def FlatMap.empty : FlatMap := fun _ => none

/-- The map after `m[k] = v`: the entry of `k` is inserted or overwritten. -/
def FlatMap.set (m : FlatMap) (k : String) (v : Nat) : FlatMap :=
  fun q => if q = k then some v else m q

/-- The result of `m.find(k)`: `none` stands for `end()`. -/
def FlatMap.find (m : FlatMap) (k : String) : Option Nat := m k

/-- Modelled from the spec: `ExceptionTracker` belongs to `valdi_core`, which is
not among the sources. Errors are "reported per-call to the caller", so the
tracker is the log of the messages passed to `onError`, oldest first. -/
structure ExceptionTracker where
  errors : List String
deriving DecidableEq, Repr

/-- The call `exceptionTracker.onError(message)`. -/
def ExceptionTracker.onError (t : ExceptionTracker) (message : String) : ExceptionTracker :=
  { errors := t.errors ++ [message] }

/-- A call made into an external collaborator. -/
inductive Event where
  /-- The call `_index.ParseFromArray(ptr, size)`. -/
  | parseIndex (ptr : Nat) (size : Int)
  /-- The call `_builder->addFileDescriptorSet(data, exceptionTracker)`. -/
  | builderAdd (data : BytesView)
  /-- The call `_builder->parseAndAddFileDescriptorSet(filename, content, ..)`. -/
  | builderParseAndAdd (filename content : String)
  /-- The call `_builder->build(_retainedBuffers, _index)`. -/
  | builderBuild
  /-- The call `_pool.FindMessageTypeByName(name)`. -/
  | poolFind (name : String)
deriving DecidableEq, Repr

/-- Whether the event is a call into the `DescriptorDatabaseBuilder`. -/
def Event.isBuilder : Event → Bool
  | .builderAdd _ => true
  | .builderParseAndAdd _ _ => true
  | .builderBuild => true
  | _ => false

/-- Whether the event is a call into the reflective pool. -/
def Event.isPool : Event → Bool
  | .poolFind _ => true
  | _ => false

/-- Whether the event is a decoding of index bytes. -/
def Event.isParse : Event → Bool
  | .parseIndex _ _ => true
  | _ => false

/-- Number of calls into the reflective pool recorded in a trace. -/
def poolCalls (trace : List Event) : Nat := trace.countP Event.isPool

/-- How a call ends. -/
inductive Outcome (α : Type) where
  /-- The call returns. -/
  | returned (a : α)
  /-- A failed `assert` stops the process. -/
  | aborted
  /-- An element access outside its container: undefined in the source. -/
  | undefined

/-! ## `DescriptorDatabase` -/

/-- The members of `DescriptorDatabase`; `β` is the state of a
`DescriptorDatabaseBuilder`. -/
structure DescriptorDatabase (β : Type) where
  _retainedBuffers : List BytesView
  _index : DescriptorIndex
  _descriptors : List (Option Nat)
  _fileIndexByName : FlatMap
  _symbolIndexByName : FlatMap
  _packageIndexByName : FlatMap
  _prebuiltIndexLoaded : Bool
  _builder : Option β
  _skipProtoIndex : Bool

/-- The constructor `DescriptorDatabase(skipProtoIndex)`. -/
def DescriptorDatabase.new (β : Type) (skipProtoIndex : Bool) : DescriptorDatabase β :=
  { _retainedBuffers := [], _index := DescriptorIndex.empty, _descriptors := [],
    _fileIndexByName := FlatMap.empty, _symbolIndexByName := FlatMap.empty,
    _packageIndexByName := FlatMap.empty, _prebuiltIndexLoaded := false,
    _builder := none, _skipProtoIndex := skipProtoIndex }

/-- The external collaborators and the build mode. `β` is the state of a
`DescriptorDatabaseBuilder`, `π` the state of the reflective pool. -/
structure Env (β π : Type) where
  /-- Whether `assert` is compiled in (`NDEBUG` not defined). -/
  assertsEnabled : Bool
  /-- Whether a failed `SC_ASSERT_NOTNULL` stops the process; the macro belongs
  to `valdi_core`, which is not among the sources. -/
  scAssertFatal : Bool
  /-- The protobuf call `ParseFromArray(ptr, size)` on a `DescriptorIndex`:
  whether decoding succeeded, and the contents of the message afterwards. -/
  ParseFromArray : Nat → Int → Bool × DescriptorIndex
  /-- The state of `std::make_shared<DescriptorDatabaseBuilder>()`. -/
  newBuilder : β
  /-- The method `DescriptorDatabaseBuilder::addFileDescriptorSet`. -/
  builderAddFileDescriptorSet : β → BytesView → ExceptionTracker → Bool × β × ExceptionTracker
  /-- The method `DescriptorDatabaseBuilder::parseAndAddFileDescriptorSet`. -/
  builderParseAndAddFileDescriptorSet :
    β → String → String → ExceptionTracker → Bool × β × ExceptionTracker
  /-- The method `DescriptorDatabaseBuilder::build(retainedBuffers, descriptorIndex)`: the
  result and the two referenced arguments afterwards. -/
  builderBuild : β → List BytesView → DescriptorIndex → Bool × β × List BytesView × DescriptorIndex
  /-- The method `DescriptorPool::FindMessageTypeByName`, which may read the database it
  was built over. -/
  FindMessageTypeByName : π → DescriptorDatabase β → String → Option Nat × π

/-- What a load call returns: the `bool`, and the database, the tracker and
the external calls made. -/
structure LoadResult (β : Type) where
  result : Bool
  db : DescriptorDatabase β
  tracker : ExceptionTracker
  trace : List Event

/-- One of the three loops of `finaliseIndex`, from index `i` on:
`for (; i < size; ++i) map[name(i)] = i`, over the names still to visit. -/
def fillIndexByName : List String → Nat → FlatMap → FlatMap
  | [], _, m => m
  | name :: rest, i, m => fillIndexByName rest (i + 1) (m.set name i)

/-- Embedding of `DescriptorDatabase::finaliseIndex`. -/
def finaliseIndex {β : Type} (db : DescriptorDatabase β) : DescriptorDatabase β :=
  { db with
    _fileIndexByName :=
      fillIndexByName (db._index.files.map File.file_name) 0 FlatMap.empty
    _symbolIndexByName :=
      fillIndexByName (db._index.symbols.map Symbol.full_name) 0 FlatMap.empty
    _packageIndexByName :=
      fillIndexByName (db._index.packages.map Package.full_name) 0 FlatMap.empty
    _descriptors := List.replicate db._index.symbols.length none }

/-- The builder the database holds, created on first use. -/
def currentBuilder {β π : Type} (env : Env β π) (db : DescriptorDatabase β) : β :=
  match db._builder with
  | none => env.newBuilder
  | some b => b

/-- The tail shared by both builder paths: `_builder->build(_retainedBuffers,
_index)` and then `finaliseIndex()`. -/
def buildAndFinalise {β π : Type} (env : Env β π) (db : DescriptorDatabase β) (b : β)
    (tracker : ExceptionTracker) (trace : List Event) : LoadResult β :=
  match env.builderBuild b db._retainedBuffers db._index with
  | (false, b2, bufs, idx) =>
    ⟨false, { db with _builder := some b2, _retainedBuffers := bufs, _index := idx }, tracker,
      trace ++ [Event.builderBuild]⟩
  | (true, b2, bufs, idx) =>
    ⟨true, finaliseIndex { db with _builder := some b2, _retainedBuffers := bufs, _index := idx },
      tracker, trace ++ [Event.builderBuild]⟩

/-- Embedding of `DescriptorDatabase::addFileDescriptorSetWithBuilder`. -/
def addFileDescriptorSetWithBuilder {β π : Type} (env : Env β π) (db : DescriptorDatabase β)
    (data : BytesView) (tracker : ExceptionTracker) : LoadResult β :=
  match env.builderAddFileDescriptorSet (currentBuilder env db) data tracker with
  | (false, b1, t1) => ⟨false, { db with _builder := some b1 }, t1, [Event.builderAdd data]⟩
  | (true, b1, t1) => buildAndFinalise env db b1 t1 [Event.builderAdd data]

/-- The pointer-patching loop of `addFileDescriptorSet` over the files still to
visit: `false` with the files as they stand when a `data_offset` exceeds
`bodySize`, otherwise every `data_offset` replaced by
`reinterpret_cast<uint64_t>(pBody + data_offset)`. -/
def patchFiles (pBody bodySize : Nat) : List File → Bool × List File
  | [] => (true, [])
  | f :: rest =>
    if f.data_offset > bodySize then (false, f :: rest)
    else
      let r := patchFiles pBody bodySize rest
      (r.1, { f with data_offset := (pBody + f.data_offset) % 2 ^ 64 } :: r.2)

/-- The local `indexSize` of `addFileDescriptorSet`: the `uint32_t` at offset 8. -/
def indexSize (data : BytesView) : Nat := data.readU32 8

/-- The local `pIndex` of `addFileDescriptorSet`: `data.data() + 12`. -/
def pIndex (data : BytesView) : Nat := data.data + 12

/-- The local `pBody` of `addFileDescriptorSet`: `pIndex + indexSize`. -/
def pBody (data : BytesView) : Nat := pIndex data + indexSize data

/-- The local `bodySize` of `addFileDescriptorSet`:
`data.size() - 12 - indexSize` in `size_t` arithmetic. -/
def bodySize (data : BytesView) : Nat := sizeSub (sizeSub data.size 12) (indexSize data)

/-- The fast path of `addFileDescriptorSet`, from `_retainedBuffers.emplace_back`
to its `return true`. -/
def loadPrebuiltIndex {β π : Type} (env : Env β π) (db : DescriptorDatabase β)
    (data : BytesView) (tracker : ExceptionTracker) : Outcome (LoadResult β) :=
  let db1 := { db with _retainedBuffers := db._retainedBuffers ++ [data] }
  let parsed := env.ParseFromArray (pIndex data) (toInt32 (indexSize data))
  let trace := [Event.parseIndex (pIndex data) (toInt32 (indexSize data))]
  if !parsed.1 then
    .returned ⟨false, { db1 with _index := parsed.2 }, tracker, trace⟩
  else
    let patched := patchFiles (pBody data) (bodySize data) parsed.2.files
    let db2 := { db1 with _index := { parsed.2 with files := patched.2 } }
    if !patched.1 then
      if env.assertsEnabled then .aborted else .returned ⟨false, db2, tracker, trace⟩
    else
      .returned ⟨true, { finaliseIndex db2 with _prebuiltIndexLoaded := true }, tracker, trace⟩

/-- Embedding of `DescriptorDatabase::addFileDescriptorSet`. The offset
`12 + indexSize` handed to `subrange` is a `uint32_t` sum. -/
def addFileDescriptorSet {β π : Type} (env : Env β π) (db : DescriptorDatabase β)
    (data : BytesView) (tracker : ExceptionTracker) : Outcome (LoadResult β) :=
  if env.assertsEnabled && db._prebuiltIndexLoaded then .aborted
  else if data.size > 12 ∧ data.bytes.take 8 = signature then
    if db._skipProtoIndex then
      .returned (addFileDescriptorSetWithBuilder env db
        (data.subrange ((12 + indexSize data) % 2 ^ 32) (bodySize data)) tracker)
    else loadPrebuiltIndex env db data tracker
  else .returned (addFileDescriptorSetWithBuilder env db data tracker)

/-- Embedding of `DescriptorDatabase::parseAndAddFileDescriptorSet`. -/
def parseAndAddFileDescriptorSet {β π : Type} (env : Env β π) (db : DescriptorDatabase β)
    (filename protoFileContent : String) (tracker : ExceptionTracker) : Outcome (LoadResult β) :=
  if env.assertsEnabled && db._prebuiltIndexLoaded then .aborted
  else
    match env.builderParseAndAddFileDescriptorSet (currentBuilder env db) filename
        protoFileContent tracker with
    | (false, b1, t1) =>
      .returned ⟨false, { db with _builder := some b1 }, t1,
        [Event.builderParseAndAdd filename protoFileContent]⟩
    | (true, b1, t1) =>
      .returned (buildAndFinalise env db b1 t1 [Event.builderParseAndAdd filename protoFileContent])

/-! ## Accessors of `DescriptorDatabase` -/

/-- The conversion `static_cast<int>(index)` of a `size_t`: the low 32 bits, read
as a signed number. -/
def sizeToInt (index : Nat) : Int := toInt32 index

/-- The unchecked read `field(static_cast<int>(index))` of a repeated field of a
protobuf message, `index` being a `size_t`. A repeated field holds at most
`INT_MAX` entries, so an index below its size is unchanged by the conversion and
reads its own entry; any other index is narrowed to `int` first, and reads the
entry at the narrowed position when that is one (`2 ^ 32 + k` reads entry `k`).
`none` stands for a read outside the field. -/
def entryAt {α : Type} (entries : List α) (index : Nat) : Option α :=
  if index < entries.length then entries.get? index
  else if 0 ≤ sizeToInt index then entries.get? (sizeToInt index).toNat
  else none

/-- Embedding of `DescriptorDatabase::getSymbolsSize`. -/
def getSymbolsSize {β : Type} (db : DescriptorDatabase β) : Nat := db._index.symbols.length

/-- Embedding of `DescriptorDatabase::getPackagesSize`. -/
def getPackagesSize {β : Type} (db : DescriptorDatabase β) : Nat := db._index.packages.length

/-- Embedding of `DescriptorDatabase::getDescriptorOfSymbolAtIndex`, the unchecked
`_descriptors[index]`: `none` when `index` is outside the vector. -/
def getDescriptorOfSymbolAtIndex {β : Type} (db : DescriptorDatabase β) (index : Nat) :
    Option (Option Nat) :=
  db._descriptors.get? index

/-- Embedding of `DescriptorDatabase::getSymbolNameAtIndex`, the unchecked
`_index.symbols(static_cast<int>(index)).full_name()`. -/
def getSymbolNameAtIndex {β : Type} (db : DescriptorDatabase β) (index : Nat) : Option String :=
  (entryAt db._index.symbols index).map Symbol.full_name

/-- Embedding of `DescriptorDatabase::setDescriptorOfSymbolAtIndex`, the unchecked
`_descriptors[index] = descriptor`: `none` when `index` is outside the vector. -/
def setDescriptorOfSymbolAtIndex {β : Type} (db : DescriptorDatabase β) (index : Nat)
    (descriptor : Option Nat) : Option (DescriptorDatabase β) :=
  if index < db._descriptors.length then
    some { db with _descriptors := db._descriptors.set index descriptor }
  else none

/-- Embedding of `DescriptorDatabase::getPackageAtIndex`, the unchecked
`_index.packages(static_cast<int>(index))`. -/
def getPackageAtIndex {β : Type} (db : DescriptorDatabase β) (index : Nat) : Option Package :=
  entryAt db._index.packages index

/-- Embedding of `DescriptorDatabase::getRootPackage`, the unchecked `_index.packages(0)`. -/
def getRootPackage {β : Type} (db : DescriptorDatabase β) : Option Package :=
  db._index.packages.get? 0

/-- Embedding of `DescriptorDatabase::getSymbolIndexForName`. -/
def getSymbolIndexForName {β : Type} (db : DescriptorDatabase β) (name : String) : Option Nat :=
  db._symbolIndexByName.find name

/-! ## `ProtobufMessageFactory` -/

/-- The members of `ProtobufMessageFactory`: the database and the reflective
pool built over it. -/
structure ProtobufMessageFactory (β π : Type) where
  _descriptorDatabase : DescriptorDatabase β
  _pool : π

/-- What `getDescriptorAtIndex` returns: the handle, and the factory, the
tracker and the external calls made. -/
structure ResolveResult (β π : Type) where
  descriptor : Option Nat
  factory : ProtobufMessageFactory β π
  tracker : ExceptionTracker
  trace : List Event

/-- The end of the cache-miss branch of `getDescriptorAtIndex`: the store into
the cache slot and the return. -/
def storeAndReturn {β π : Type} (f : ProtobufMessageFactory β π) (index : Nat)
    (descriptor : Option Nat) (pool : π) (tracker : ExceptionTracker) (trace : List Event) :
    Outcome (ResolveResult β π) :=
  match setDescriptorOfSymbolAtIndex f._descriptorDatabase index descriptor with
  | none => .undefined
  | some db => .returned ⟨descriptor, { _descriptorDatabase := db, _pool := pool }, tracker, trace⟩

/-- Embedding of `ProtobufMessageFactory::getDescriptorAtIndex`. -/
def getDescriptorAtIndex {β π : Type} (env : Env β π) (f : ProtobufMessageFactory β π)
    (index : Nat) (tracker : ExceptionTracker) : Outcome (ResolveResult β π) :=
  if index ≥ getSymbolsSize f._descriptorDatabase then
    .returned ⟨none, f, tracker.onError "Invalid descriptor index", []⟩
  else
    match getDescriptorOfSymbolAtIndex f._descriptorDatabase index with
    | none => .undefined
    | some (some d) => .returned ⟨some d, f, tracker, []⟩
    | some none =>
      match getSymbolNameAtIndex f._descriptorDatabase index with
      | none => .undefined
      | some symbolNameStr =>
        let found := env.FindMessageTypeByName f._pool f._descriptorDatabase symbolNameStr
        let trace := [Event.poolFind symbolNameStr]
        match found.1 with
        | none =>
          if env.scAssertFatal then .aborted
          else
            storeAndReturn f index none found.2
              (tracker.onError ("Internal error: cannot find message type " ++ symbolNameStr))
              trace
        | some d => storeAndReturn f index (some d) found.2 tracker trace

/-- The result of `fullName.find_last_of(c)`: the greatest position holding
`c`, `none` standing for `npos`. -/
def findLastOf : List Char → Char → Option Nat
  | [], _ => none
  | x :: xs, c =>
    match findLastOf xs c with
    | some i => some (i + 1)
    | none => if x = c then some 0 else none

/-- Embedding of `getLastComponent`: what follows the last dot, or the whole name. -/
def getLastComponent (fullName : String) : String :=
  match findLastOf fullName.data '.' with
  | some dotSeparator => String.mk (fullName.data.drop (dotSeparator + 1))
  | none => fullName

/-- Embedding of `ProtobufMessageFactory::NamespaceEntry`. -/
structure NamespaceEntry where
  id : Nat
  name : String
  isMessage : Bool
deriving DecidableEq, Repr

/-- The first loop of `getNamespaceEntriesForPackage`, over the symbol indexes
still to visit; `none` when one of them is outside the symbols table. -/
def symbolEntries {β : Type} (db : DescriptorDatabase β) : List Nat → Option (List NamespaceEntry)
  | [] => some []
  | symbolIndex :: rest =>
    match getSymbolNameAtIndex db symbolIndex with
    | none => none
    | some fullName =>
      (symbolEntries db rest).map
        (fun es => { id := symbolIndex, name := getLastComponent fullName, isMessage := true } :: es)

/-- The second loop of `getNamespaceEntriesForPackage`, over the nested package
indexes still to visit; `none` when one of them is outside the packages table. -/
def packageEntries {β : Type} (db : DescriptorDatabase β) : List Nat → Option (List NamespaceEntry)
  | [] => some []
  | nestedPackageIndex :: rest =>
    match getPackageAtIndex db nestedPackageIndex with
    | none => none
    | some package =>
      (packageEntries db rest).map
        (fun es =>
          { id := nestedPackageIndex, name := getLastComponent package.full_name,
            isMessage := false } :: es)

/-- Embedding of `getNamespaceEntriesForPackage`: the entries of the symbols, then those of
the nested packages. -/
def getNamespaceEntriesForPackage {β : Type} (db : DescriptorDatabase β) (package : Package) :
    Option (List NamespaceEntry) :=
  match symbolEntries db package.symbol_indexes with
  | none => none
  | some syms => (packageEntries db package.nested_package_indexes).map (fun pkgs => syms ++ pkgs)

/-- The outcome of a listing whose element accesses may be out of range. -/
def listingOutcome : Option (List NamespaceEntry) → Outcome (List NamespaceEntry)
  | none => .undefined
  | some es => .returned es

/-- Embedding of `ProtobufMessageFactory::getRootNamespaceEntries`. -/
def getRootNamespaceEntries {β π : Type} (f : ProtobufMessageFactory β π) :
    Outcome (List NamespaceEntry) :=
  match getRootPackage f._descriptorDatabase with
  | none => .undefined
  | some package => listingOutcome (getNamespaceEntriesForPackage f._descriptorDatabase package)

/-- Embedding of `ProtobufMessageFactory::getNamespaceEntriesForId`: the returned vector and
the tracker after the call. -/
def getNamespaceEntriesForId {β π : Type} (f : ProtobufMessageFactory β π) (id : Nat)
    (tracker : ExceptionTracker) : Outcome (List NamespaceEntry) × ExceptionTracker :=
  if id ≥ getPackagesSize f._descriptorDatabase then
    (.returned [], tracker.onError "Invalid package id")
  else
    match getPackageAtIndex f._descriptorDatabase id with
    | none => (.undefined, tracker)
    | some package =>
      (listingOutcome (getNamespaceEntriesForPackage f._descriptorDatabase package), tracker)

/-! ## Concrete inputs used by the examples -/

/-- An environment over trivial builder and pool states: asserts compiled out,
a decoder that reports `ok` and leaves `idx` in the message, a builder that
rejects every input, a pool that answers every lookup with `found`. -/
def exampleEnv (ok : Bool) (idx : DescriptorIndex) (found : Option Nat) : Env Unit Unit :=
  { assertsEnabled := false, scAssertFatal := false,
    ParseFromArray := fun _ _ => (ok, idx),
    newBuilder := (),
    builderAddFileDescriptorSet := fun b _ t => (false, b, t),
    builderParseAndAddFileDescriptorSet := fun b _ _ t => (false, b, t),
    builderBuild := fun b bufs index => (false, b, bufs, index),
    FindMessageTypeByName := fun p _ _ => (found, p) }

/-- An index with one file of 2 bytes at relative offset 0. -/
def overlongIndex : DescriptorIndex := ⟨[⟨"a", 0, 2⟩], [], []⟩

/-- A precomputed buffer at address 4096: signature, `indexLength = 7`, seven
index bytes and a body region of one byte. -/
def overlongBuffer : BytesView :=
  ⟨4096, signature ++ [7, 0, 0, 0] ++ [10, 5, 10, 1, 97, 24, 2] ++ [0]⟩

/-- A truncated precomputed buffer at address 4096: signature,
`indexLength = 100`, and a single byte after the header. -/
def truncatedBuffer : BytesView := ⟨4096, signature ++ [100, 0, 0, 0] ++ [0]⟩

/-- A buffer that is exactly the 12-byte header: signature and `indexLength = 0`. -/
def headerOnlyBuffer : BytesView := ⟨4096, signature ++ [0, 0, 0, 0]⟩

/-- A precomputed buffer at address 4096 whose body region is the three bytes
`1, 2, 3`: signature, `indexLength = 2`, two index bytes, body. -/
def skipBuffer : BytesView :=
  ⟨4096, signature ++ [2, 0, 0, 0] ++ [10, 0] ++ [1, 2, 3]⟩

/-- An index with one file, the symbol `a.M` and the packages `""` and `a`. -/
def exampleIndex : DescriptorIndex :=
  ⟨[⟨"a.proto", 0, 1⟩], [⟨"a.M", 0⟩], [⟨"", [], [1]⟩, ⟨"a", [0], []⟩]⟩

/-- A factory whose database holds `exampleIndex`, finalised, with no descriptor
resolved yet. -/
def exampleFactory : ProtobufMessageFactory Unit Unit :=
  ⟨finaliseIndex { DescriptorDatabase.new Unit false with _index := exampleIndex }, ()⟩

/-- The members that a failed load is shown to leave alone: the three
name-to-id maps, the descriptor cache, the fast-loaded flag and the skip flag. -/
def SameLookupState {β : Type} (db db' : DescriptorDatabase β) : Prop :=
  db'._fileIndexByName = db._fileIndexByName ∧
  db'._symbolIndexByName = db._symbolIndexByName ∧
  db'._packageIndexByName = db._packageIndexByName ∧
  db'._descriptors = db._descriptors ∧
  db'._prebuiltIndexLoaded = db._prebuiltIndexLoaded ∧
  db'._skipProtoIndex = db._skipProtoIndex

/-! ## Schema-source-provider methods of `DescriptorDatabase` -/

/-- What a file lookup returns: the `bool`, the output message after the call,
and the calls `output->ParseFromArray(ptr, size)` it made. -/
structure FindResult (φ : Type) where
  result : Bool
  output : φ
  decoded : List (Nat × Int)

/-- Embedding of `DescriptorDatabase::copyProtoOfFile`. `φ` is the contents of a
`FileDescriptorProto` and `parse ptr size` the protobuf call
`output->ParseFromArray(ptr, size)`: whether decoding succeeded, and the contents
of the message afterwards. The read `_index.files(static_cast<int>(fileIndex))`
is unchecked. -/
def copyProtoOfFile {β φ : Type} (parse : Nat → Int → Bool × φ) (db : DescriptorDatabase β)
    (fileIndex : Nat) (_output : φ) : Outcome (FindResult φ) :=
  match entryAt db._index.files fileIndex with
  | none => .undefined
  | some file =>
    let r := parse file.data_offset (toInt32 file.length)
    .returned ⟨r.1, r.2, [(file.data_offset, toInt32 file.length)]⟩

/-- Embedding of `DescriptorDatabase::FindFileByName`. -/
def FindFileByName {β φ : Type} (parse : Nat → Int → Bool × φ) (db : DescriptorDatabase β)
    (filename : String) (output : φ) : Outcome (FindResult φ) :=
  match db._fileIndexByName.find filename with
  | none => .returned ⟨false, output, []⟩
  | some fileIndex => copyProtoOfFile parse db fileIndex output

/-- Embedding of `DescriptorDatabase::FindFileContainingSymbol`. The read
`_index.symbols(static_cast<int>(it->second))` is unchecked. -/
def FindFileContainingSymbol {β φ : Type} (parse : Nat → Int → Bool × φ)
    (db : DescriptorDatabase β) (symbolName : String) (output : φ) : Outcome (FindResult φ) :=
  match db._symbolIndexByName.find symbolName with
  | none => .returned ⟨false, output, []⟩
  | some symbolIndex =>
    match entryAt db._index.symbols symbolIndex with
    | none => .undefined
    | some symbol => copyProtoOfFile parse db symbol.file_index output

/-- Embedding of `DescriptorDatabase::FindFileContainingExtension`: the `bool`,
the output argument and the database after the call. -/
def FindFileContainingExtension {β φ : Type} (db : DescriptorDatabase β)
    (_containingType : String) (_fieldNumber : Int) (output : φ) :
    Bool × φ × DescriptorDatabase β :=
  (false, output, db)

/-- Embedding of `DescriptorDatabase::FindAllExtensionNumbers`: the `bool`, the
output vector and the database after the call. -/
def FindAllExtensionNumbers {β : Type} (db : DescriptorDatabase β) (_extendeeType : String)
    (output : List Int) : Bool × List Int × DescriptorDatabase β :=
  (false, output, db)

/-! ## Sequences of calls on a `ProtobufMessageFactory` -/

/-- The constructor `ProtobufMessageFactory(skipProtoIndex)`: a fresh database
and the pool built over it, in state `pool`. -/
def ProtobufMessageFactory.new (β : Type) {π : Type} (skipProtoIndex : Bool) (pool : π) :
    ProtobufMessageFactory β π :=
  { _descriptorDatabase := DescriptorDatabase.new β skipProtoIndex, _pool := pool }

/-- Embedding of `ProtobufMessageFactory::load`. -/
def ProtobufMessageFactory.load {β π : Type} (env : Env β π) (f : ProtobufMessageFactory β π)
    (data : BytesView) (tracker : ExceptionTracker) : Outcome (LoadResult β) :=
  addFileDescriptorSet env f._descriptorDatabase data tracker

/-- Embedding of `ProtobufMessageFactory::parseAndLoad`. -/
def ProtobufMessageFactory.parseAndLoad {β π : Type} (env : Env β π)
    (f : ProtobufMessageFactory β π) (filename protoFileContent : String)
    (tracker : ExceptionTracker) : Outcome (LoadResult β) :=
  parseAndAddFileDescriptorSet env f._descriptorDatabase filename protoFileContent tracker

/-- A call made on a factory by its owner, with its arguments. -/
inductive Call where
  /-- The call `load(data, exceptionTracker)`. -/
  | load (data : BytesView) (tracker : ExceptionTracker)
  /-- The call `parseAndLoad(filename, protoFileContent, exceptionTracker)`. -/
  | parseAndLoad (filename protoFileContent : String) (tracker : ExceptionTracker)
  /-- The call `getDescriptorAtIndex(index, exceptionTracker)`. -/
  | resolve (index : Nat) (tracker : ExceptionTracker)
deriving DecidableEq, Repr

/-- Whether the call is a `getDescriptorAtIndex`. -/
def Call.isResolve : Call → Bool
  | .resolve _ _ => true
  | _ => false

/-- The factory after a load call that returned `r`: the database is the one
the call left, the pool is untouched. -/
def afterLoad {β π : Type} (f : ProtobufMessageFactory β π) (r : LoadResult β) :
    ProtobufMessageFactory β π :=
  { _descriptorDatabase := r.db, _pool := f._pool }

/-- One call on a factory: the factory afterwards and, for a load call, the
record of what it returned. -/
def step {β π : Type} (env : Env β π) (f : ProtobufMessageFactory β π) :
    Call → Outcome (ProtobufMessageFactory β π × List (LoadResult β))
  | .load data tracker =>
    match f.load env data tracker with
    | .returned r => .returned (afterLoad f r, [r])
    | .aborted => .aborted
    | .undefined => .undefined
  | .parseAndLoad filename protoFileContent tracker =>
    match f.parseAndLoad env filename protoFileContent tracker with
    | .returned r => .returned (afterLoad f r, [r])
    | .aborted => .aborted
    | .undefined => .undefined
  | .resolve index tracker =>
    match getDescriptorAtIndex env f index tracker with
    | .returned r => .returned (r.factory, [])
    | .aborted => .aborted
    | .undefined => .undefined

/-- A sequence of calls, made one after the other from factory `f`; `history`
collects the records of the load calls, oldest first. The sequence stops at the
first call that does not return. -/
def run {β π : Type} (env : Env β π) :
    ProtobufMessageFactory β π → List (LoadResult β) → List Call →
    Outcome (ProtobufMessageFactory β π × List (LoadResult β))
  | f, history, [] => .returned (f, history)
  | f, history, call :: rest =>
    match step env f call with
    | .returned (f1, records) => run env f1 (history ++ records) rest
    | .aborted => .aborted
    | .undefined => .undefined

/-- Whether a load call took the fast path and returned `true`: it decoded
index bytes and reported success. -/
def LoadResult.fastLoaded {β : Type} (r : LoadResult β) : Bool :=
  r.result && r.trace.any Event.isParse

/-! ## The debug dump -/

/-- Modelled from the spec: `Value` and `ValueArray` belong to `valdi_core`, which
is not among the sources. The dump is "a nested name→children structure": a
value is null (`Value()`), a string, an array, or a map whose entries are kept
in insertion order. -/
inductive Value where
  /-- A default-constructed `Value()`. -/
  | null
  /-- A string value. -/
  | string (s : String)
  /-- A `ValueArray`, by position. -/
  | array (items : List Value)
  /-- A map value, by key. -/
  | map (entries : List (String × Value))

/-- The dump of a package as the claim words it: its full name under `"name"`;
under `"symbols"`, present only when it has a symbol, the full names of its
direct symbols in sorted order, `sorted`; under `"packages"`, present only when
it has a nested package, the dumps `kids` of its nested packages in stored
order. -/
def describePackage (package : Package) (sorted : List String) (kids : List Value) : Value :=
  .map ([("name", Value.string package.full_name)]
    ++ (if sorted.isEmpty then [] else [("symbols", Value.array (sorted.map Value.string))])
    ++ (if kids.isEmpty then [] else [("packages", Value.array kids)]))

mutual
/-- The value `v` is the dump of `package`, as the claim words it, read off the
symbols and packages tables of the index. -/
inductive IsDump {β : Type} (db : DescriptorDatabase β) : Package → Value → Prop where
  /-- The list `names` holds, in stored order, the full names of the symbols table
  entries at the package's symbol indexes; `sorted` is a sorted rearrangement of
  it; `kids` holds the dumps of the nested packages. -/
  | mk (package : Package) (names sorted : List String) (kids : List Value)
      (hnames : package.symbol_indexes.map
          (fun s => (db._index.symbols.get? s).map Symbol.full_name) = names.map some)
      (hperm : sorted.Perm names)
      (hsorted : sorted.Sorted (fun a b => a.data ≤ b.data))
      (hkids : AreDumps db package.nested_package_indexes kids) :
      IsDump db package (describePackage package sorted kids)
/-- The values are the dumps of the packages table entries at the listed ids,
in order. -/
inductive AreDumps {β : Type} (db : DescriptorDatabase β) : List Nat → List Value → Prop where
  /-- No package, no dump. -/
  | nil : AreDumps db [] []
  /-- The dump of the first package, then those of the others. -/
  | cons (c : Nat) (cs : List Nat) (package : Package) (v : Value) (vs : List Value)
      (hc : db._index.packages.get? c = some package) (hv : IsDump db package v)
      (hvs : AreDumps db cs vs) : AreDumps db (c :: cs) (v :: vs)
end

/-- Modelled from the spec: the index of the scenario "package `a.b` with message
`M` and package `a.b.c` with message `N`", which the Builder (its implementation
is not among the sources) would produce: packages `""` (id 0), `a`, `a.b`,
`a.b.c` and symbols `a.b.M`, `a.b.c.N`, ids in declaration order. -/
def scenarioIndex : DescriptorIndex :=
  ⟨[⟨"ab.proto", 0, 1⟩, ⟨"abc.proto", 1, 1⟩],
   [⟨"a.b.M", 0⟩, ⟨"a.b.c.N", 1⟩],
   [⟨"", [], [1]⟩, ⟨"a", [], [2]⟩, ⟨"a.b", [0], [3]⟩, ⟨"a.b.c", [1], []⟩]⟩

/-- A database holding `scenarioIndex`, before `finaliseIndex`. -/
def scenarioDb : DescriptorDatabase Unit :=
  { DescriptorDatabase.new Unit false with _index := scenarioIndex }

/-- The environment `exampleEnv` in a build with `assert` compiled in. -/
def assertingEnv (ok : Bool) (idx : DescriptorIndex) (found : Option Nat) : Env Unit Unit :=
  { exampleEnv ok idx found with assertsEnabled := true }

/-- An index with one symbol whose single file has relative offset 5. -/
def badOffsetIndex : DescriptorIndex :=
  ⟨[⟨"a.proto", 5, 1⟩], [⟨"a.M", 0⟩], [⟨"", [], [1]⟩, ⟨"a", [0], []⟩]⟩

/-- An index in which two files, two symbols and two packages share a name. -/
def duplicateIndex : DescriptorIndex :=
  ⟨[⟨"a.proto", 0, 1⟩, ⟨"a.proto", 0, 1⟩],
   [⟨"a.M", 0⟩, ⟨"a.M", 1⟩],
   [⟨"", [], [1, 2]⟩, ⟨"a", [0], []⟩, ⟨"a", [1], []⟩]⟩

/-- A database holding `duplicateIndex`, before `finaliseIndex`. -/
def duplicateDb : DescriptorDatabase Unit :=
  { DescriptorDatabase.new Unit false with _index := duplicateIndex }

/-! ## Reads of repeated fields -/

theorem entryAt_of_lt {α : Type} (entries : List α) (index : Nat)
    (h : index < entries.length) : entryAt entries index = entries.get? index := by
  unfold entryAt
  rw [if_pos h]

theorem entryAt_narrowed {α : Type} (entries : List α) (index : Nat)
    (hsize : entries.length ≤ 2 ^ 31) :
    entryAt entries index
      = if 0 ≤ sizeToInt index then entries.get? (sizeToInt index).toNat else none := by
  unfold entryAt
  split
  · rename_i h
    have h1 : index % 2 ^ 32 = index := Nat.mod_eq_of_lt (by omega)
    have h2 : sizeToInt index = (index : Int) := by
      unfold sizeToInt toInt32
      rw [h1, if_pos (by omega)]
    rw [h2, if_pos (Int.natCast_nonneg _)]
    rfl
  · rfl

theorem entryAt_mem {α : Type} (entries : List α) (index : Nat) (a : α)
    (h : entryAt entries index = some a) : a ∈ entries := by
  unfold entryAt at h
  split at h
  · exact List.get?_mem h
  · split at h
    · exact List.get?_mem h
    · cases h

theorem getPackageAtIndex_of_lt {β : Type} (db : DescriptorDatabase β) (i : Nat)
    (h : i < getPackagesSize db) : getPackageAtIndex db i = db._index.packages.get? i :=
  entryAt_of_lt _ _ h

theorem getSymbolNameAtIndex_of_lt {β : Type} (db : DescriptorDatabase β) (i : Nat)
    (h : i < getSymbolsSize db) :
    getSymbolNameAtIndex db i = (db._index.symbols.get? i).map Symbol.full_name := by
  unfold getSymbolNameAtIndex
  rw [entryAt_of_lt _ _ h]

theorem lt_of_get?_eq_some {α : Type} (l : List α) (i : Nat) (a : α)
    (h : l.get? i = some a) : i < l.length := by
  by_contra hge
  rw [List.get?_eq_none.mpr (not_lt.mp hge)] at h
  cases h

/-! ## Lemmas on the load paths -/

theorem buildAndFinalise_false {β π : Type} (env : Env β π) (db : DescriptorDatabase β) (b : β)
    (t : ExceptionTracker) (tr : List Event)
    (h : (buildAndFinalise env db b t tr).result = false) :
    SameLookupState db (buildAndFinalise env db b t tr).db := by
  unfold buildAndFinalise at h ⊢
  split
  · exact ⟨rfl, rfl, rfl, rfl, rfl, rfl⟩
  · rename_i heq
    rw [heq] at h
    simp at h

theorem withBuilder_false {β π : Type} (env : Env β π) (db : DescriptorDatabase β)
    (data : BytesView) (t : ExceptionTracker)
    (h : (addFileDescriptorSetWithBuilder env db data t).result = false) :
    SameLookupState db (addFileDescriptorSetWithBuilder env db data t).db := by
  unfold addFileDescriptorSetWithBuilder at h ⊢
  split
  · exact ⟨rfl, rfl, rfl, rfl, rfl, rfl⟩
  · rename_i heq
    rw [heq] at h
    exact buildAndFinalise_false env db _ _ _ h

theorem loadPrebuiltIndex_false {β π : Type} (env : Env β π) (db : DescriptorDatabase β)
    (data : BytesView) (t : ExceptionTracker) (r : LoadResult β)
    (h : loadPrebuiltIndex env db data t = .returned r) (hf : r.result = false) :
    SameLookupState db r.db := by
  unfold loadPrebuiltIndex at h
  simp only at h
  split at h
  · cases h
    exact ⟨rfl, rfl, rfl, rfl, rfl, rfl⟩
  · split at h
    · split at h
      · cases h
      · cases h
        exact ⟨rfl, rfl, rfl, rfl, rfl, rfl⟩
    · cases h
      simp at hf

theorem buildAndFinalise_trace {β π : Type} (env : Env β π) (db : DescriptorDatabase β) (b : β)
    (t : ExceptionTracker) (tr : List Event) :
    (buildAndFinalise env db b t tr).trace = tr ++ [Event.builderBuild] ∧
    (buildAndFinalise env db b t tr).db._prebuiltIndexLoaded = db._prebuiltIndexLoaded := by
  unfold buildAndFinalise
  split <;> exact ⟨rfl, rfl⟩

theorem withBuilder_trace {β π : Type} (env : Env β π) (db : DescriptorDatabase β)
    (data : BytesView) (t : ExceptionTracker) :
    ((addFileDescriptorSetWithBuilder env db data t).trace = [Event.builderAdd data] ∨
      (addFileDescriptorSetWithBuilder env db data t).trace
        = [Event.builderAdd data, Event.builderBuild]) ∧
    (addFileDescriptorSetWithBuilder env db data t).db._prebuiltIndexLoaded
      = db._prebuiltIndexLoaded := by
  unfold addFileDescriptorSetWithBuilder
  split
  · exact ⟨Or.inl rfl, rfl⟩
  · exact ⟨Or.inr (buildAndFinalise_trace env db _ _ _).1, (buildAndFinalise_trace env db _ _ _).2⟩

theorem loadPrebuiltIndex_outcome {β π : Type} (env : Env β π) (db : DescriptorDatabase β)
    (data : BytesView) (t : ExceptionTracker) :
    loadPrebuiltIndex env db data t = .aborted ∨
    ∃ r, loadPrebuiltIndex env db data t = .returned r ∧
      r.trace = [Event.parseIndex (data.data + 12) (toInt32 (indexSize data))] ∧
      r.db._builder = db._builder := by
  unfold loadPrebuiltIndex
  simp only
  split
  · exact Or.inr ⟨_, rfl, rfl, rfl⟩
  · split
    · split
      · exact Or.inl rfl
      · exact Or.inr ⟨_, rfl, rfl, rfl⟩
    · exact Or.inr ⟨_, rfl, rfl, rfl⟩

theorem bodySize_eq (data : BytesView) (hsize : data.size > 12) (h64 : data.size < 2 ^ 64)
    (hidx : indexSize data ≤ data.size - 12) :
    bodySize data = data.size - 12 - indexSize data := by
  unfold bodySize sizeSub
  have h1 : (12 : Nat) % 2 ^ 64 = 12 := by norm_num
  have h2 : (data.size + 2 ^ 64 - 12) % 2 ^ 64 = data.size - 12 := by
    have e : data.size + 2 ^ 64 - 12 = (data.size - 12) + 2 ^ 64 := by omega
    rw [e, Nat.add_mod_right]
    exact Nat.mod_eq_of_lt (by omega)
  have h3 : indexSize data % 2 ^ 64 = indexSize data := Nat.mod_eq_of_lt (by omega)
  rw [h1, h2, h3]
  have e : data.size - 12 + 2 ^ 64 - indexSize data
      = (data.size - 12 - indexSize data) + 2 ^ 64 := by omega
  rw [e, Nat.add_mod_right]
  exact Nat.mod_eq_of_lt (by omega)

theorem subrange_to_end (data : BytesView) (start : Nat) :
    data.subrange start (data.size - start) = ⟨data.data + start, data.bytes.drop start⟩ := by
  unfold BytesView.subrange BytesView.size
  congr 1
  apply List.take_of_length_le
  simp

theorem patchFiles_ok (p b : Nat) (fs : List File) (h : (patchFiles p b fs).1 = true) :
    (patchFiles p b fs).2
      = fs.map (fun f => { f with data_offset := (p + f.data_offset) % 2 ^ 64 }) := by
  induction fs with
  | nil => rfl
  | cons f rest ih =>
    unfold patchFiles at h ⊢
    split
    · rename_i hgt
      rw [if_pos hgt] at h
      simp at h
    · rename_i hgt
      rw [if_neg hgt] at h
      simp only [List.map_cons]
      rw [ih h]

theorem finaliseIndex_descriptors_length {β : Type} (db : DescriptorDatabase β) :
    (finaliseIndex db)._descriptors.length = getSymbolsSize (finaliseIndex db) := by
  simp [finaliseIndex, getSymbolsSize]

theorem fillIndexByName_of_not_mem (names : List String) (i : Nat) (m : FlatMap) (q : String)
    (h : q ∉ names) : fillIndexByName names i m q = m q := by
  induction names generalizing i m with
  | nil => rfl
  | cons n rest ih =>
    have hq : q ≠ n := fun e => h (e ▸ List.mem_cons_self _ _)
    have hr : q ∉ rest := fun e => h (List.mem_cons_of_mem _ e)
    rw [fillIndexByName, ih _ _ hr]
    simp [FlatMap.set, hq]

theorem fillIndexByName_eq_none (names : List String) (i : Nat) (m : FlatMap) (q : String) :
    fillIndexByName names i m q = none ↔ m q = none ∧ q ∉ names := by
  induction names generalizing i m with
  | nil => simp [fillIndexByName]
  | cons n rest ih =>
    rw [fillIndexByName, ih]
    by_cases hq : q = n
    · simp [FlatMap.set, hq]
    · simp [FlatMap.set, hq]

theorem fillIndexByName_eq_some (names : List String) (i : Nat) (m : FlatMap) (q : String)
    (j : Nat) (h : fillIndexByName names i m q = some j) :
    (m q = some j ∧ q ∉ names) ∨ (i ≤ j ∧ j < i + names.length ∧ names[j - i]? = some q) := by
  induction names generalizing i m with
  | nil => exact Or.inl ⟨h, List.not_mem_nil _⟩
  | cons n rest ih =>
    rw [fillIndexByName] at h
    rcases ih _ _ h with ⟨hm, hr⟩ | ⟨h1, h2, h3⟩
    · by_cases hq : q = n
      · subst hq
        have hj : i = j := by simpa [FlatMap.set] using hm
        subst hj
        exact Or.inr ⟨le_refl _, by simp, by simp⟩
      · refine Or.inl ⟨by simpa [FlatMap.set, hq] using hm, ?_⟩
        simp [hq, hr]
    · refine Or.inr ⟨by omega, by simp; omega, ?_⟩
      have e : j - i = (j - (i + 1)) + 1 := by omega
      rw [e, List.getElem?_cons_succ]
      exact h3

theorem fillIndexByName_nodup (names : List String) (i : Nat) (m : FlatMap) (q : String)
    (k : Nat) (hn : names.Nodup) (hk : names[k]? = some q) :
    fillIndexByName names i m q = some (i + k) := by
  induction names generalizing i m k with
  | nil => simp at hk
  | cons n rest ih =>
    rw [fillIndexByName]
    rw [List.nodup_cons] at hn
    cases k with
    | zero =>
      have e : n = q := by simpa using hk
      subst e
      rw [fillIndexByName_of_not_mem _ _ _ _ hn.1]
      simp [FlatMap.set]
    | succ k =>
      rw [List.getElem?_cons_succ] at hk
      rw [ih _ _ _ hn.2 hk]
      congr 1
      omega

/-! ## Claims -/

/-- C1 (defect of the code): the claim asks that a precomputed buffer whose index
decodes to a File entry with `data_offset + length` beyond the body region be
rejected. The patching loop compares only `data_offset` with the body size: on
`overlongBuffer`, whose body region has 1 byte and whose single File entry has
`data_offset = 0` and `length = 2`, the load returns `true`. -/
theorem C1_overlong_file_is_accepted :
    overlongBuffer.bytes.take 8 = signature ∧
    (exampleEnv true overlongIndex none).ParseFromArray (pIndex overlongBuffer)
        (toInt32 (indexSize overlongBuffer)) = (true, overlongIndex) ∧
    (∃ f ∈ overlongIndex.files,
      f.data_offset + f.length > overlongBuffer.size - 12 - indexSize overlongBuffer) ∧
    ∃ r, addFileDescriptorSet (exampleEnv true overlongIndex none)
        (DescriptorDatabase.new Unit false) overlongBuffer ⟨[]⟩ = .returned r ∧
      r.result = true :=
  ⟨by decide, rfl, ⟨⟨"a", 0, 2⟩, by decide, by decide⟩, _, rfl, rfl⟩

theorem failed_load_keeps_lookup_state {β π : Type} (env : Env β π)
    (db : DescriptorDatabase β) (data : BytesView) (filename content : String)
    (t : ExceptionTracker) (r : LoadResult β)
    (h : addFileDescriptorSet env db data t = .returned r ∨
      parseAndAddFileDescriptorSet env db filename content t = .returned r)
    (hf : r.result = false) :
    SameLookupState db r.db := by
  rcases h with h | h
  · unfold addFileDescriptorSet at h
    split at h
    · cases h
    · split at h
      · split at h
        · cases h
          exact withBuilder_false env db _ t hf
        · exact loadPrebuiltIndex_false env db data t r h hf
      · cases h
        exact withBuilder_false env db _ t hf
  · unfold parseAndAddFileDescriptorSet at h
    split at h
    · cases h
    · split at h
      · cases h
        exact ⟨rfl, rfl, rfl, rfl, rfl, rfl⟩
      · cases h
        exact buildAndFinalise_false env db _ _ _ hf

/-- C2 (defect of the code): the claim asks that a load that returns `false`
leave the visible state exactly as it was. The fast path appends the buffer and
decodes into `_index` before it validates, and its `return false` exits neither
undo that nor reach `finaliseIndex`: on a fresh database, after the failed load
of `overlongBuffer` with an index whose file offset 5 lies beyond the 1-byte body
region (`assert` compiled out), the retained-buffer list holds the buffer and
the index holds the decoded tables, while the name map still has no entry for
the symbol `a.M` and the cache has no slot for it. -/
theorem C2_failed_fast_load_commits_partially :
    ∃ r, addFileDescriptorSet (exampleEnv true badOffsetIndex none)
        (DescriptorDatabase.new Unit false) overlongBuffer ⟨[]⟩ = .returned r ∧
      r.result = false ∧
      (DescriptorDatabase.new Unit false)._retainedBuffers = [] ∧
      r.db._retainedBuffers = [overlongBuffer] ∧
      (DescriptorDatabase.new Unit false)._index = DescriptorIndex.empty ∧
      r.db._index = badOffsetIndex ∧
      getSymbolNameAtIndex r.db 0 = some "a.M" ∧
      getSymbolIndexForName r.db "a.M" = none ∧
      r.db._descriptors = [] :=
  ⟨_, rfl, rfl, rfl, rfl, rfl, rfl, by decide, rfl, rfl⟩

/-- C3 (defect of the code): the claim asks that a truncated index be rejected
and that the body size never wrap. `truncatedBuffer` declares `indexLength = 100`
with one byte after the header: `bodySize` wraps to `2 ^ 64 - 99`, the decoder is
handed 100 bytes from address `4096 + 12`, and when it reports success the load
returns `true`. -/
theorem C3_truncated_index_wraps_body_size :
    truncatedBuffer.bytes.take 8 = signature ∧
    truncatedBuffer.size - 12 < indexSize truncatedBuffer ∧
    bodySize truncatedBuffer = 2 ^ 64 - 99 ∧
    ∃ r, addFileDescriptorSet (exampleEnv true DescriptorIndex.empty none)
        (DescriptorDatabase.new Unit false) truncatedBuffer ⟨[]⟩ = .returned r ∧
      r.result = true ∧ r.trace = [Event.parseIndex 4108 100] :=
  ⟨by decide, by decide, by decide, _, rfl, rfl, by decide⟩

/-- C4: for every state and every `id >= symbols_size()`, `getDescriptorAtIndex`
returns, reports "Invalid descriptor index", yields no handle, makes no external
call (so none into the reflective pool) and leaves the factory, hence every
descriptor-cache slot and the pool, unchanged. -/
theorem C4_out_of_range_id_is_invalid_index {β π : Type} (env : Env β π)
    (f : ProtobufMessageFactory β π) (id : Nat) (t : ExceptionTracker)
    (h : id ≥ getSymbolsSize f._descriptorDatabase) :
    ∃ r, getDescriptorAtIndex env f id t = .returned r ∧ r.descriptor = none ∧
      r.tracker = t.onError "Invalid descriptor index" ∧ r.trace = [] ∧
      poolCalls r.trace = 0 ∧ r.factory = f := by
  refine ⟨⟨none, f, t.onError "Invalid descriptor index", []⟩, ?_, rfl, rfl, rfl, rfl, rfl⟩
  unfold getDescriptorAtIndex
  rw [if_pos h]

/-- C4 (witness): id 1 on a database with one symbol. -/
theorem C4_out_of_range_id_is_invalid_index_witness :
    ∃ r, getDescriptorAtIndex (exampleEnv true exampleIndex (some 7)) exampleFactory 1 ⟨[]⟩
        = .returned r ∧ r.descriptor = none ∧
      r.tracker = (⟨[]⟩ : ExceptionTracker).onError "Invalid descriptor index" ∧ r.trace = [] ∧
      poolCalls r.trace = 0 ∧ r.factory = exampleFactory :=
  C4_out_of_range_id_is_invalid_index _ exampleFactory 1 ⟨[]⟩ (by decide)

/-- C5: for every state, `getNamespaceEntriesForId` with
`packageId >= packages_size()` reports "Invalid package id" and returns the empty
vector; with `packageId < packages_size()` it leaves the tracker untouched and
its result is the listing of the package stored at that id. -/
theorem C5_namespace_entries_bounds {β π : Type} (f : ProtobufMessageFactory β π) (id : Nat)
    (t : ExceptionTracker) :
    (id ≥ getPackagesSize f._descriptorDatabase →
      getNamespaceEntriesForId f id t = (.returned [], t.onError "Invalid package id")) ∧
    (id < getPackagesSize f._descriptorDatabase →
      (getNamespaceEntriesForId f id t).2 = t ∧
      ∃ p, getPackageAtIndex f._descriptorDatabase id = some p ∧
        (getNamespaceEntriesForId f id t).1 =
          listingOutcome (getNamespaceEntriesForPackage f._descriptorDatabase p)) := by
  constructor
  · intro h
    unfold getNamespaceEntriesForId
    rw [if_pos h]
  · intro h
    have hp : ∃ p, getPackageAtIndex f._descriptorDatabase id = some p := by
      exact ⟨_, (getPackageAtIndex_of_lt _ _ h).trans (List.get?_eq_get h)⟩
    obtain ⟨p, hp⟩ := hp
    unfold getNamespaceEntriesForId
    rw [if_neg (not_le.mpr h), hp]
    exact ⟨rfl, p, rfl, rfl⟩

/-- C6 (counterexample): when the pool answers not-found and
`SC_ASSERT_NOTNULL` does not stop the process, the empty handle is stored in the
slot, the slot still reads as empty, and the second call asks the pool again: two
pool calls for two successive resolutions of id 0. -/
theorem C6_not_found_is_resolved_twice :
    ∃ r1 r2,
      getDescriptorAtIndex (exampleEnv true exampleIndex none) exampleFactory 0 ⟨[]⟩
        = .returned r1 ∧
      getDescriptorAtIndex (exampleEnv true exampleIndex none) r1.factory 0 r1.tracker
        = .returned r2 ∧
      poolCalls r1.trace + poolCalls r2.trace = 2 :=
  ⟨_, _, rfl, rfl, by decide⟩

/-- C6 (amended): on a loaded database (the cache has `symbols_size()` slots,
as `finaliseIndex` leaves it), for every `id < symbols_size()` and every pool
that answers the lookup of the first call, when one is made, with a handle: two
successive calls of `getDescriptorAtIndex` both return, invoke the pool at most
once in total, the second call makes no pool call and returns the handle of the
first, read from the cache slot the first call left. -/
theorem C6_second_resolution_hits_cache {β π : Type} (env : Env β π)
    (f : ProtobufMessageFactory β π) (id : Nat) (t : ExceptionTracker)
    (hsize : f._descriptorDatabase._descriptors.length = getSymbolsSize f._descriptorDatabase)
    (hid : id < getSymbolsSize f._descriptorDatabase)
    (hpool : ∀ name, getDescriptorOfSymbolAtIndex f._descriptorDatabase id = some none →
      getSymbolNameAtIndex f._descriptorDatabase id = some name →
      (env.FindMessageTypeByName f._pool f._descriptorDatabase name).1 ≠ none) :
    ∃ r1 r2, getDescriptorAtIndex env f id t = .returned r1 ∧
      getDescriptorAtIndex env r1.factory id r1.tracker = .returned r2 ∧
      poolCalls r1.trace + poolCalls r2.trace ≤ 1 ∧ poolCalls r2.trace = 0 ∧
      r1.descriptor ≠ none ∧ r2.descriptor = r1.descriptor ∧
      getDescriptorOfSymbolAtIndex r1.factory._descriptorDatabase id = some r1.descriptor ∧
      r2.factory = r1.factory := by
  have hlen : id < f._descriptorDatabase._descriptors.length := hsize ▸ hid
  have hslot : getDescriptorOfSymbolAtIndex f._descriptorDatabase id
      = some (f._descriptorDatabase._descriptors.get ⟨id, hlen⟩) := by
    unfold getDescriptorOfSymbolAtIndex
    exact List.get?_eq_get hlen
  have hname : getSymbolNameAtIndex f._descriptorDatabase id
      = some (f._descriptorDatabase._index.symbols.get ⟨id, hid⟩).full_name := by
    rw [getSymbolNameAtIndex_of_lt _ _ hid, List.get?_eq_get hid]
    rfl
  cases hd : f._descriptorDatabase._descriptors.get ⟨id, hlen⟩ with
  | some d =>
    rw [hd] at hslot
    have hcall : getDescriptorAtIndex env f id t = .returned ⟨some d, f, t, []⟩ := by
      unfold getDescriptorAtIndex
      rw [if_neg (not_le.mpr hid), hslot]
    exact ⟨_, _, hcall, hcall, by simp [poolCalls], by simp [poolCalls], by simp, rfl, hslot, rfl⟩
  | none =>
    rw [hd] at hslot
    have hp := hpool _ hslot hname
    obtain ⟨d, hfound⟩ := Option.ne_none_iff_exists'.mp hp
    have hset : setDescriptorOfSymbolAtIndex f._descriptorDatabase id (some d)
        = some { f._descriptorDatabase with
            _descriptors := f._descriptorDatabase._descriptors.set id (some d) } := by
      unfold setDescriptorOfSymbolAtIndex
      rw [if_pos hlen]
    have hcall : getDescriptorAtIndex env f id t = .returned
        ⟨some d,
          { _descriptorDatabase := { f._descriptorDatabase with
              _descriptors := f._descriptorDatabase._descriptors.set id (some d) },
            _pool := (env.FindMessageTypeByName f._pool f._descriptorDatabase
              (f._descriptorDatabase._index.symbols.get ⟨id, hid⟩).full_name).2 },
          t, [Event.poolFind (f._descriptorDatabase._index.symbols.get ⟨id, hid⟩).full_name]⟩ := by
      unfold getDescriptorAtIndex
      rw [if_neg (not_le.mpr hid), hslot]
      simp only [hname, hfound, storeAndReturn, hset]
    have hslot2 : getDescriptorOfSymbolAtIndex
        { f._descriptorDatabase with
            _descriptors := f._descriptorDatabase._descriptors.set id (some d) } id
        = some (some d) := by
      unfold getDescriptorOfSymbolAtIndex
      simp [hlen]
    have hcall2 : getDescriptorAtIndex env
        { _descriptorDatabase := { f._descriptorDatabase with
            _descriptors := f._descriptorDatabase._descriptors.set id (some d) },
          _pool := (env.FindMessageTypeByName f._pool f._descriptorDatabase
            (f._descriptorDatabase._index.symbols.get ⟨id, hid⟩).full_name).2 } id t
        = .returned ⟨some d,
          { _descriptorDatabase := { f._descriptorDatabase with
              _descriptors := f._descriptorDatabase._descriptors.set id (some d) },
            _pool := (env.FindMessageTypeByName f._pool f._descriptorDatabase
              (f._descriptorDatabase._index.symbols.get ⟨id, hid⟩).full_name).2 }, t, []⟩ := by
      unfold getDescriptorAtIndex
      rw [if_neg (by simpa [getSymbolsSize] using hid)]
      simp only [hslot2]
    exact ⟨_, _, hcall, hcall2, by simp [poolCalls, Event.isPool], by simp [poolCalls],
      by simp, rfl, hslot2, rfl⟩

/-- C6 (witness): id 0 of `exampleFactory` with a pool that answers with
handle 7. -/
theorem C6_second_resolution_hits_cache_witness :
    ∃ r1 r2,
      getDescriptorAtIndex (exampleEnv true exampleIndex (some 7)) exampleFactory 0 ⟨[]⟩
        = .returned r1 ∧
      getDescriptorAtIndex (exampleEnv true exampleIndex (some 7)) r1.factory 0 r1.tracker
        = .returned r2 ∧
      poolCalls r1.trace + poolCalls r2.trace ≤ 1 ∧ poolCalls r2.trace = 0 ∧
      r1.descriptor ≠ none ∧ r2.descriptor = r1.descriptor ∧
      getDescriptorOfSymbolAtIndex r1.factory._descriptorDatabase 0 = some r1.descriptor ∧
      r2.factory = r1.factory :=
  C6_second_resolution_hits_cache (exampleEnv true exampleIndex (some 7)) exampleFactory 0 ⟨[]⟩
    (by decide) (by decide) (by intro name _ _; simp [exampleEnv])

/-- C7: after `finaliseIndex`, `getSymbolIndexForName name` is empty exactly
when no symbol has that full name; a returned `i` is below `symbols_size()` and
symbol `i` has full name `name`; and when the full names are pairwise distinct,
looking up the name of symbol `i` returns `i`, for every `i < symbols_size()`. -/
theorem C7_lookup_symbol_id_after_finalise {β : Type} (db : DescriptorDatabase β)
    (name : String) :
    (getSymbolIndexForName (finaliseIndex db) name = none ↔
      ∀ s ∈ (finaliseIndex db)._index.symbols, s.full_name ≠ name) ∧
    (∀ i, getSymbolIndexForName (finaliseIndex db) name = some i →
      i < getSymbolsSize (finaliseIndex db) ∧
      getSymbolNameAtIndex (finaliseIndex db) i = some name) ∧
    (((finaliseIndex db)._index.symbols.map Symbol.full_name).Nodup →
      ∀ i, i < getSymbolsSize (finaliseIndex db) →
        ∃ n, getSymbolNameAtIndex (finaliseIndex db) i = some n ∧
          getSymbolIndexForName (finaliseIndex db) n = some i) := by
  have hmap : ∀ q, getSymbolIndexForName (finaliseIndex db) q
      = fillIndexByName (db._index.symbols.map Symbol.full_name) 0 FlatMap.empty q := fun _ => rfl
  have hidx : (finaliseIndex db)._index = db._index := rfl
  have hnm : ∀ i, i < db._index.symbols.length → getSymbolNameAtIndex (finaliseIndex db) i
      = (db._index.symbols.map Symbol.full_name)[i]? := by
    intro i hi
    rw [getSymbolNameAtIndex_of_lt (finaliseIndex db) i hi]
    simp [finaliseIndex]
  refine ⟨?_, ?_, ?_⟩
  · rw [hmap, fillIndexByName_eq_none, hidx]
    simp [FlatMap.empty]
  · intro i hi
    rw [hmap] at hi
    rcases fillIndexByName_eq_some _ _ _ _ _ hi with ⟨hm, _⟩ | ⟨_, h2, h3⟩
    · simp [FlatMap.empty] at hm
    · simp only [Nat.zero_add, List.length_map, Nat.sub_zero] at h2 h3
      rw [hnm _ h2]
      exact ⟨h2, h3⟩
  · intro hn i hi
    rw [hidx] at hn
    have hi2 : i < (db._index.symbols.map Symbol.full_name).length := by
      simpa [getSymbolsSize, finaliseIndex] using hi
    refine ⟨(db._index.symbols.map Symbol.full_name)[i], ?_, ?_⟩
    · rw [hnm _ (by simpa using hi2)]
      exact List.getElem?_eq_getElem hi2
    · rw [hmap, fillIndexByName_nodup _ 0 _ _ i hn (List.getElem?_eq_getElem hi2)]
      simp

/-- C8 (counterexample): with the skip flag unset, the 12-byte buffer made of the
signature and a zero index length is not loaded by the fast path: the guard is
`data.size() > 12`, and the buffer is handed to the Builder. -/
theorem C8_header_only_buffer_goes_to_builder :
    headerOnlyBuffer.size ≥ 12 ∧ headerOnlyBuffer.bytes.take 8 = signature ∧
    ∃ r, addFileDescriptorSet (exampleEnv true DescriptorIndex.empty none)
        (DescriptorDatabase.new Unit false) headerOnlyBuffer ⟨[]⟩ = .returned r ∧
      r.trace = [Event.builderAdd headerOnlyBuffer] :=
  ⟨by decide, by decide, _, rfl, by decide⟩

/-- C8 (amended): with the skip flag unset and the entry assertion passing,
every buffer of at most 12 bytes or whose first 8 bytes are not the signature is
passed unchanged and in full to the Builder path, and every buffer of more than
12 bytes that starts with the signature is handled by the fast path: the call
either stops on the offset assertion or returns after the single external call
that decodes the index, with no call into the Builder and the Builder member
untouched. -/
theorem C8_dispatch_on_header {β π : Type} (env : Env β π) (db : DescriptorDatabase β)
    (data : BytesView) (t : ExceptionTracker)
    (hskip : db._skipProtoIndex = false)
    (hassert : (env.assertsEnabled && db._prebuiltIndexLoaded) = false) :
    ((data.size ≤ 12 ∨ data.bytes.take 8 ≠ signature) →
      addFileDescriptorSet env db data t
        = .returned (addFileDescriptorSetWithBuilder env db data t) ∧
      (addFileDescriptorSetWithBuilder env db data t).trace.head? = some (Event.builderAdd data)) ∧
    ((data.size > 12 ∧ data.bytes.take 8 = signature) →
      addFileDescriptorSet env db data t = loadPrebuiltIndex env db data t ∧
      (addFileDescriptorSet env db data t = .aborted ∨
        ∃ r, addFileDescriptorSet env db data t = .returned r ∧
          r.trace = [Event.parseIndex (data.data + 12) (toInt32 (indexSize data))] ∧
          r.trace.filter Event.isBuilder = [] ∧
          r.db._builder = db._builder)) := by
  constructor
  · intro h
    have hn : ¬ (data.size > 12 ∧ data.bytes.take 8 = signature) := by
      rintro ⟨h1, h2⟩
      rcases h with h | h
      · omega
      · exact h h2
    constructor
    · unfold addFileDescriptorSet
      rw [hassert, if_neg hn]
      simp
    · rcases (withBuilder_trace env db data t).1 with e | e <;> rw [e] <;> rfl
  · intro h
    have e : addFileDescriptorSet env db data t = loadPrebuiltIndex env db data t := by
      unfold addFileDescriptorSet
      rw [hassert, if_pos h, hskip]
      simp
    refine ⟨e, ?_⟩
    rw [e]
    rcases loadPrebuiltIndex_outcome env db data t with h1 | ⟨r, h1, h2, h3⟩
    · exact Or.inl h1
    · exact Or.inr ⟨r, h1, h2, by rw [h2]; rfl, h3⟩

/-- C8 (witness): the fast-path half at `overlongBuffer`. -/
theorem C8_dispatch_on_header_witness :
    (overlongBuffer.size > 12 ∧ overlongBuffer.bytes.take 8 = signature) ∧
    (addFileDescriptorSet (exampleEnv true overlongIndex none)
          (DescriptorDatabase.new Unit false) overlongBuffer ⟨[]⟩
        = loadPrebuiltIndex (exampleEnv true overlongIndex none)
          (DescriptorDatabase.new Unit false) overlongBuffer ⟨[]⟩ ∧
      (addFileDescriptorSet (exampleEnv true overlongIndex none)
          (DescriptorDatabase.new Unit false) overlongBuffer ⟨[]⟩ = .aborted ∨
        ∃ r, addFileDescriptorSet (exampleEnv true overlongIndex none)
            (DescriptorDatabase.new Unit false) overlongBuffer ⟨[]⟩ = .returned r ∧
          r.trace = [Event.parseIndex (overlongBuffer.data + 12)
            (toInt32 (indexSize overlongBuffer))] ∧
          r.trace.filter Event.isBuilder = [] ∧
          r.db._builder = (DescriptorDatabase.new Unit false)._builder)) :=
  ⟨⟨by decide, by decide⟩,
    (C8_dispatch_on_header (exampleEnv true overlongIndex none)
      (DescriptorDatabase.new Unit false) overlongBuffer ⟨[]⟩ rfl rfl).2 ⟨by decide, by decide⟩⟩

/-- C9 (counterexample): with the skip flag set, the 12-byte buffer made of the
signature and a zero index length satisfies `indexLength <= size - 12`, yet the
Builder receives the whole buffer and not the (empty) body region. -/
theorem C9_header_only_buffer_is_passed_whole :
    headerOnlyBuffer.bytes.take 8 = signature ∧
    indexSize headerOnlyBuffer ≤ headerOnlyBuffer.size - 12 ∧
    ∃ r, addFileDescriptorSet (exampleEnv true DescriptorIndex.empty none)
        (DescriptorDatabase.new Unit true) headerOnlyBuffer ⟨[]⟩ = .returned r ∧
      r.trace = [Event.builderAdd headerOnlyBuffer] ∧
      headerOnlyBuffer ≠ headerOnlyBuffer.subrange (12 + indexSize headerOnlyBuffer)
        (headerOnlyBuffer.size - 12 - indexSize headerOnlyBuffer) :=
  ⟨by decide, by decide, _, rfl, by decide, by decide⟩

/-- C9 (amended): with the skip flag set and the fast-loaded flag false, for
every buffer of more than 12 bytes that starts with the signature, has
`indexLength <= size - 12` and `12 + indexLength < 2 ^ 32`, the load is exactly
the Builder path run on the body region (address `base + 12 + indexLength`, the
bytes from offset `12 + indexLength` to the end, `size - 12 - indexLength` of
them): the Builder receives that view first, no index bytes are decoded, and the
fast-loaded flag stays false. -/
theorem C9_skip_index_passes_body_region {β π : Type} (env : Env β π)
    (db : DescriptorDatabase β) (data : BytesView) (t : ExceptionTracker)
    (hskip : db._skipProtoIndex = true) (hflag : db._prebuiltIndexLoaded = false)
    (hsize : data.size > 12) (hsig : data.bytes.take 8 = signature)
    (hidx : indexSize data ≤ data.size - 12)
    (h64 : data.size < 2 ^ 64) (h32 : 12 + indexSize data < 2 ^ 32) :
    (data.subrange (12 + indexSize data) (data.size - 12 - indexSize data)).data
      = data.data + 12 + indexSize data ∧
    (data.subrange (12 + indexSize data) (data.size - 12 - indexSize data)).bytes
      = data.bytes.drop (12 + indexSize data) ∧
    (data.subrange (12 + indexSize data) (data.size - 12 - indexSize data)).size
      = data.size - 12 - indexSize data ∧
    addFileDescriptorSet env db data t
      = .returned (addFileDescriptorSetWithBuilder env db
          (data.subrange (12 + indexSize data) (data.size - 12 - indexSize data)) t) ∧
    (addFileDescriptorSetWithBuilder env db
        (data.subrange (12 + indexSize data) (data.size - 12 - indexSize data)) t).trace.head?
      = some (Event.builderAdd
          (data.subrange (12 + indexSize data) (data.size - 12 - indexSize data))) ∧
    (addFileDescriptorSetWithBuilder env db
        (data.subrange (12 + indexSize data) (data.size - 12 - indexSize data)) t).trace.filter
        Event.isParse = [] ∧
    (addFileDescriptorSetWithBuilder env db
        (data.subrange (12 + indexSize data) (data.size - 12 - indexSize data))
        t).db._prebuiltIndexLoaded = false := by
  have hsub : data.subrange (12 + indexSize data) (data.size - 12 - indexSize data)
      = ⟨data.data + (12 + indexSize data), data.bytes.drop (12 + indexSize data)⟩ := by
    rw [Nat.sub_sub, subrange_to_end]
  have hcall : addFileDescriptorSet env db data t
      = .returned (addFileDescriptorSetWithBuilder env db
          (data.subrange (12 + indexSize data) (data.size - 12 - indexSize data)) t) := by
    unfold addFileDescriptorSet
    rw [hflag, Bool.and_false, if_neg Bool.false_ne_true, if_pos ⟨hsize, hsig⟩, hskip,
      if_pos rfl, Nat.mod_eq_of_lt h32, bodySize_eq data hsize h64 hidx]
  have htr := withBuilder_trace env db
    (data.subrange (12 + indexSize data) (data.size - 12 - indexSize data)) t
  refine ⟨?_, ?_, ?_, hcall, ?_, ?_, ?_⟩
  · rw [hsub, Nat.add_assoc]
  · rw [hsub]
  · rw [hsub]
    simp only [BytesView.size, List.length_drop]
    omega
  · rcases htr.1 with e | e <;> rw [e] <;> rfl
  · rcases htr.1 with e | e <;> rw [e] <;> rfl
  · rw [htr.2, hflag]

/-- C9 (witness): `skipBuffer`, whose body region is `1, 2, 3` at address
4110. -/
theorem C9_skip_index_passes_body_region_witness :
    addFileDescriptorSet (exampleEnv true DescriptorIndex.empty none)
        (DescriptorDatabase.new Unit true) skipBuffer ⟨[]⟩
      = .returned (addFileDescriptorSetWithBuilder (exampleEnv true DescriptorIndex.empty none)
          (DescriptorDatabase.new Unit true) ⟨4110, [1, 2, 3]⟩ ⟨[]⟩) :=
  (C9_skip_index_passes_body_region (exampleEnv true DescriptorIndex.empty none)
    (DescriptorDatabase.new Unit true) skipBuffer ⟨[]⟩ rfl rfl (by decide) (by decide)
    (by decide) (by decide) (by decide)).2.2.2.1

/-- C10: when a fast-path load returns `true`, the files table is the decoded
one with each `data_offset` replaced by
`(base + 12 + indexLength + data_offset) mod 2 ^ 64` (same entries, same order,
same `file_name` and `length`), and the symbols and packages tables are exactly
as decoded. -/
theorem C10_fast_path_patches_offsets_only {β π : Type} (env : Env β π)
    (db : DescriptorDatabase β) (data : BytesView) (t : ExceptionTracker) (r : LoadResult β)
    (hskip : db._skipProtoIndex = false) (hsize : data.size > 12)
    (hsig : data.bytes.take 8 = signature)
    (h : addFileDescriptorSet env db data t = .returned r) (hr : r.result = true) :
    r.db._index.files
      = (env.ParseFromArray (data.data + 12) (toInt32 (indexSize data))).2.files.map
          (fun f => { f with
            data_offset := (data.data + 12 + indexSize data + f.data_offset) % 2 ^ 64 }) ∧
    r.db._index.symbols
      = (env.ParseFromArray (data.data + 12) (toInt32 (indexSize data))).2.symbols ∧
    r.db._index.packages
      = (env.ParseFromArray (data.data + 12) (toInt32 (indexSize data))).2.packages ∧
    (env.ParseFromArray (data.data + 12) (toInt32 (indexSize data))).1 = true ∧
    r.db._prebuiltIndexLoaded = true := by
  unfold addFileDescriptorSet at h
  split at h
  · cases h
  · rw [if_pos ⟨hsize, hsig⟩, hskip] at h
    simp only [Bool.false_eq_true, if_false] at h
    unfold loadPrebuiltIndex at h
    simp only at h
    split at h
    · cases h
      simp at hr
    · rename_i hparse
      split at h
      · split at h
        · cases h
        · cases h
          simp at hr
      · rename_i hpatch
        cases h
        simp only [Bool.not_eq_true, Bool.not_eq_false, Bool.not_not] at hparse hpatch
        refine ⟨?_, rfl, rfl, ?_, rfl⟩
        · show (patchFiles (pBody data) (bodySize data) _).2 = _
          rw [patchFiles_ok _ _ _ (by simpa using hpatch)]
          rfl
        · simpa [pIndex] using hparse

/-- C10 (witness): the successful load of `overlongBuffer`, whose body region
starts at address 4115. -/
theorem C10_fast_path_patches_offsets_only_witness :
    ∃ r, addFileDescriptorSet (exampleEnv true overlongIndex none)
        (DescriptorDatabase.new Unit false) overlongBuffer ⟨[]⟩ = .returned r ∧
      r.result = true ∧
      r.db._index.files = [⟨"a", 4115, 2⟩] ∧ r.db._index.symbols = [] ∧
      r.db._index.packages = [] :=
  ⟨_, rfl, rfl,
    (C10_fast_path_patches_offsets_only (exampleEnv true overlongIndex none)
      (DescriptorDatabase.new Unit false) overlongBuffer ⟨[]⟩ _ rfl (by decide) (by decide)
      rfl rfl).1,
    rfl, rfl⟩

/-! ## Namespace listings -/

theorem symbolEntries_in_range {β : Type} (db : DescriptorDatabase β) (idxs : List Nat)
    (h : ∀ i ∈ idxs, i < getSymbolsSize db) :
    symbolEntries db idxs = some (idxs.map (fun i =>
      { id := i, name := getLastComponent ((getSymbolNameAtIndex db i).getD ""),
        isMessage := true })) := by
  induction idxs with
  | nil => rfl
  | cons i rest ih =>
    have hi : i < db._index.symbols.length := h i (List.mem_cons_self _ _)
    have hname : getSymbolNameAtIndex db i = some (db._index.symbols.get ⟨i, hi⟩).full_name := by
      rw [getSymbolNameAtIndex_of_lt _ _ hi, List.get?_eq_get hi]
      rfl
    rw [symbolEntries, hname, ih (fun j hj => h j (List.mem_cons_of_mem _ hj))]
    simp [hname]

theorem packageEntries_in_range {β : Type} (db : DescriptorDatabase β) (idxs : List Nat)
    (h : ∀ i ∈ idxs, i < getPackagesSize db) :
    packageEntries db idxs = some (idxs.map (fun i =>
      { id := i,
        name := getLastComponent (((getPackageAtIndex db i).map Package.full_name).getD ""),
        isMessage := false })) := by
  induction idxs with
  | nil => rfl
  | cons i rest ih =>
    have hi : i < db._index.packages.length := h i (List.mem_cons_self _ _)
    have hp : getPackageAtIndex db i = some (db._index.packages.get ⟨i, hi⟩) :=
      (getPackageAtIndex_of_lt _ _ hi).trans (List.get?_eq_get hi)
    rw [packageEntries, hp, ih (fun j hj => h j (List.mem_cons_of_mem _ hj))]
    simp [hp]

/-- C11: for every package id below `packages_size()` whose stored symbol and
nested-package indexes are in range, `getNamespaceEntriesForId` returns, without
reporting an error, `symbol_indexes_size + nested_package_indexes_size` entries:
one per direct symbol in stored order (id the symbol index, `isMessage = true`,
name the last dotted component of the symbol's full name), then one per nested
package in stored order (id the package index, `isMessage = false`, name the last
dotted component of the package's full name). `getRootNamespaceEntries` is that
listing for package id 0. -/
theorem C11_namespace_entries_listing {β π : Type} (f : ProtobufMessageFactory β π)
    (id : Nat) (t : ExceptionTracker) (p : Package)
    (hid : id < getPackagesSize f._descriptorDatabase)
    (hp : getPackageAtIndex f._descriptorDatabase id = some p)
    (hs : ∀ i ∈ p.symbol_indexes, i < getSymbolsSize f._descriptorDatabase)
    (hn : ∀ i ∈ p.nested_package_indexes, i < getPackagesSize f._descriptorDatabase) :
    ∃ es, getNamespaceEntriesForId f id t = (.returned es, t) ∧
      es.length = p.symbol_indexes.length + p.nested_package_indexes.length ∧
      es = p.symbol_indexes.map (fun i =>
          { id := i,
            name := getLastComponent
              ((getSymbolNameAtIndex f._descriptorDatabase i).getD ""),
            isMessage := true })
        ++ p.nested_package_indexes.map (fun i =>
          { id := i,
            name := getLastComponent
              (((getPackageAtIndex f._descriptorDatabase i).map Package.full_name).getD ""),
            isMessage := false }) ∧
      (id = 0 → getRootNamespaceEntries f = .returned es) := by
  have hlist : getNamespaceEntriesForPackage f._descriptorDatabase p = some
      (p.symbol_indexes.map (fun i =>
          { id := i,
            name := getLastComponent
              ((getSymbolNameAtIndex f._descriptorDatabase i).getD ""),
            isMessage := true })
        ++ p.nested_package_indexes.map (fun i =>
          { id := i,
            name := getLastComponent
              (((getPackageAtIndex f._descriptorDatabase i).map Package.full_name).getD ""),
            isMessage := false })) := by
    unfold getNamespaceEntriesForPackage
    rw [symbolEntries_in_range _ _ hs, packageEntries_in_range _ _ hn]
    rfl
  refine ⟨_, ?_, ?_, rfl, ?_⟩
  · unfold getNamespaceEntriesForId
    rw [if_neg (not_le.mpr hid), hp]
    simp only [hlist, listingOutcome]
  · simp
  · intro h0
    subst h0
    unfold getRootNamespaceEntries getRootPackage
    rw [getPackageAtIndex_of_lt _ _ hid] at hp
    rw [hp]
    simp only [hlist, listingOutcome]

/-- C11 (witness): package `a.b` (id 2) of the scenario index lists the symbol
`M` and then the nested package `c`. -/
theorem C11_namespace_entries_listing_witness :
    ∃ es, getNamespaceEntriesForId (⟨finaliseIndex scenarioDb, ()⟩ :
        ProtobufMessageFactory Unit Unit) 2 ⟨[]⟩ = (.returned es, ⟨[]⟩) ∧
      es = [⟨0, "M", true⟩, ⟨3, "c", false⟩] := by
  obtain ⟨es, h1, _, h3, _⟩ := C11_namespace_entries_listing
    (⟨finaliseIndex scenarioDb, ()⟩ : ProtobufMessageFactory Unit Unit) 2 ⟨[]⟩
    ⟨"a.b", [0], [3]⟩ (by decide) rfl (by decide) (by decide)
  exact ⟨es, h1, h3.trans (by decide)⟩

theorem lookup_of_symbol_name {β : Type} (db : DescriptorDatabase β) (k : Nat) (name : String)
    (h : getSymbolNameAtIndex db k = some name) :
    ∃ i, getSymbolIndexForName (finaliseIndex db) name = some i ∧
      i < getSymbolsSize (finaliseIndex db) ∧
      getSymbolNameAtIndex (finaliseIndex db) i = some name := by
  have hmap : getSymbolIndexForName (finaliseIndex db) name
      = fillIndexByName (db._index.symbols.map Symbol.full_name) 0 FlatMap.empty name := rfl
  have hmem : name ∈ db._index.symbols.map Symbol.full_name := by
    unfold getSymbolNameAtIndex at h
    cases he : entryAt db._index.symbols k with
    | none => rw [he] at h; cases h
    | some symbol =>
      rw [he] at h
      exact List.mem_map.mpr ⟨symbol, entryAt_mem _ _ _ he, Option.some.inj h⟩
  cases hl : fillIndexByName (db._index.symbols.map Symbol.full_name) 0 FlatMap.empty name with
  | none =>
    rw [fillIndexByName_eq_none] at hl
    exact absurd hmem hl.2
  | some i =>
    rcases fillIndexByName_eq_some _ _ _ _ _ hl with ⟨hm, _⟩ | ⟨_, h2, h3⟩
    · simp [FlatMap.empty] at hm
    · have hi : i < db._index.symbols.length := by simpa using h2
      refine ⟨i, hmap.trans hl, hi, ?_⟩
      rw [getSymbolNameAtIndex_of_lt (finaliseIndex db) i hi]
      have h3b : (db._index.symbols.map Symbol.full_name)[i]? = some name := by simpa using h3
      simpa [finaliseIndex] using h3b

/-- C12: on every index in which package 0 is the root `""` with the single
nested package `a`, `a` has the single nested package `a.b`, `a.b` has the
symbol `a.b.M` and the nested package `a.b.c`, and `a.b.c` has the symbol
`a.b.c.N` (the ids `pa`, `pb`, `pc`, `sM`, `sN` being the positions of these
entries in the packages and symbols tables): after `finaliseIndex` the root
namespace lists exactly `{a, isMessage false}`, the namespace of `a` exactly
`{b, false}`, the namespace of `a.b` exactly `{M, true}` then `{c, false}`, and
`getSymbolIndexForName "a.b.M"` returns an id below `symbols_size()` whose symbol
is named `a.b.M`. -/
theorem C12_scenario_namespaces {β π : Type} (db : DescriptorDatabase β) (pool : π)
    (t : ExceptionTracker) (pa pb pc sM sN : Nat)
    (h0 : db._index.packages.get? 0 = some ⟨"", [], [pa]⟩)
    (ha : db._index.packages.get? pa = some ⟨"a", [], [pb]⟩)
    (hb : db._index.packages.get? pb = some ⟨"a.b", [sM], [pc]⟩)
    (hc : db._index.packages.get? pc = some ⟨"a.b.c", [sN], []⟩)
    (hM : (db._index.symbols.get? sM).map Symbol.full_name = some "a.b.M")
    (hN : (db._index.symbols.get? sN).map Symbol.full_name = some "a.b.c.N") :
    getRootNamespaceEntries (⟨finaliseIndex db, pool⟩ : ProtobufMessageFactory β π)
      = .returned [⟨pa, "a", false⟩] ∧
    getNamespaceEntriesForId (⟨finaliseIndex db, pool⟩ : ProtobufMessageFactory β π) pa t
      = (.returned [⟨pb, "b", false⟩], t) ∧
    getNamespaceEntriesForId (⟨finaliseIndex db, pool⟩ : ProtobufMessageFactory β π) pb t
      = (.returned [⟨sM, "M", true⟩, ⟨pc, "c", false⟩], t) ∧
    getNamespaceEntriesForId (⟨finaliseIndex db, pool⟩ : ProtobufMessageFactory β π) pc t
      = (.returned [⟨sN, "N", true⟩], t) ∧
    ∃ i, getSymbolIndexForName (finaliseIndex db) "a.b.M" = some i ∧
      i < getSymbolsSize (finaliseIndex db) ∧
      getSymbolNameAtIndex (finaliseIndex db) i = some "a.b.M" := by
  have e1 : getLastComponent "a" = "a" := by decide
  have e2 : getLastComponent "a.b" = "b" := by decide
  have e3 : getLastComponent "a.b.M" = "M" := by decide
  have e4 : getLastComponent "a.b.c" = "c" := by decide
  have e5 : getLastComponent "a.b.c.N" = "N" := by decide
  have hsz : getPackagesSize (finaliseIndex db) = getPackagesSize db := rfl
  have la : pa < getPackagesSize db := lt_of_get?_eq_some _ _ _ ha
  have lb : pb < getPackagesSize db := lt_of_get?_eq_some _ _ _ hb
  have lc : pc < getPackagesSize db := lt_of_get?_eq_some _ _ _ hc
  have lM : sM < getSymbolsSize db := by
    cases hs : db._index.symbols.get? sM with
    | none => rw [hs] at hM; cases hM
    | some _ => exact lt_of_get?_eq_some _ _ _ hs
  have lN : sN < getSymbolsSize db := by
    cases hs : db._index.symbols.get? sN with
    | none => rw [hs] at hN; cases hN
    | some _ => exact lt_of_get?_eq_some _ _ _ hs
  have ga : getPackageAtIndex (finaliseIndex db) pa = some ⟨"a", [], [pb]⟩ :=
    (getPackageAtIndex_of_lt (finaliseIndex db) pa la).trans ha
  have gb : getPackageAtIndex (finaliseIndex db) pb = some ⟨"a.b", [sM], [pc]⟩ :=
    (getPackageAtIndex_of_lt (finaliseIndex db) pb lb).trans hb
  have gc : getPackageAtIndex (finaliseIndex db) pc = some ⟨"a.b.c", [sN], []⟩ :=
    (getPackageAtIndex_of_lt (finaliseIndex db) pc lc).trans hc
  have gM : getSymbolNameAtIndex (finaliseIndex db) sM = some "a.b.M" :=
    (getSymbolNameAtIndex_of_lt (finaliseIndex db) sM lM).trans hM
  have gN : getSymbolNameAtIndex (finaliseIndex db) sN = some "a.b.c.N" :=
    (getSymbolNameAtIndex_of_lt (finaliseIndex db) sN lN).trans hN
  refine ⟨?_, ?_, ?_, ?_, lookup_of_symbol_name db sM _ gM⟩
  · have h0' : getRootPackage (finaliseIndex db) = some ⟨"", [], [pa]⟩ := h0
    simp [getRootNamespaceEntries, h0', getNamespaceEntriesForPackage, symbolEntries,
      packageEntries, ga, e1, listingOutcome]
  · simp [getNamespaceEntriesForId, hsz, la, ga, gb, getNamespaceEntriesForPackage,
      symbolEntries, packageEntries, e2, listingOutcome]
  · simp [getNamespaceEntriesForId, hsz, lb, gb, gc, gM, getNamespaceEntriesForPackage,
      symbolEntries, packageEntries, e3, e4, listingOutcome]
  · simp [getNamespaceEntriesForId, hsz, lc, gc, gN, getNamespaceEntriesForPackage,
      symbolEntries, packageEntries, e5, listingOutcome]

/-- C12 (witness): the scenario index with ids in declaration order. -/
theorem C12_scenario_namespaces_witness :
    getRootNamespaceEntries (⟨finaliseIndex scenarioDb, ()⟩ : ProtobufMessageFactory Unit Unit)
      = .returned [⟨1, "a", false⟩] ∧
    getNamespaceEntriesForId (⟨finaliseIndex scenarioDb, ()⟩ : ProtobufMessageFactory Unit Unit)
      1 ⟨[]⟩ = (.returned [⟨2, "b", false⟩], ⟨[]⟩) ∧
    getNamespaceEntriesForId (⟨finaliseIndex scenarioDb, ()⟩ : ProtobufMessageFactory Unit Unit)
      2 ⟨[]⟩ = (.returned [⟨0, "M", true⟩, ⟨3, "c", false⟩], ⟨[]⟩) ∧
    getNamespaceEntriesForId (⟨finaliseIndex scenarioDb, ()⟩ : ProtobufMessageFactory Unit Unit)
      3 ⟨[]⟩ = (.returned [⟨1, "N", true⟩], ⟨[]⟩) ∧
    ∃ i, getSymbolIndexForName (finaliseIndex scenarioDb) "a.b.M" = some i ∧
      i < getSymbolsSize (finaliseIndex scenarioDb) ∧
      getSymbolNameAtIndex (finaliseIndex scenarioDb) i = some "a.b.M" :=
  C12_scenario_namespaces scenarioDb () ⟨[]⟩ 1 2 3 0 1 rfl rfl rfl rfl rfl rfl

/-! ## `getLastComponent` -/

theorem findLastOf_eq_none (s : List Char) (c : Char) : findLastOf s c = none ↔ c ∉ s := by
  induction s with
  | nil => simp [findLastOf]
  | cons x xs ih =>
    unfold findLastOf
    cases h : findLastOf xs c with
    | some i =>
      have : ¬ c ∉ xs := fun hn => by rw [ih.mpr hn] at h; cases h
      simp only [List.mem_cons, not_or]
      constructor
      · intro hc
        cases hc
      · intro hc
        exact absurd hc.2 this
    | none =>
      have hxs : c ∉ xs := ih.mp h
      by_cases hx : x = c
      · simp [hx]
      · have hx2 : ¬ c = x := fun e => hx e.symm
        simp [hx, hx2, hxs]

theorem findLastOf_eq_some (s : List Char) (c : Char) (i : Nat) (h : findLastOf s c = some i) :
    s = s.take i ++ c :: s.drop (i + 1) ∧ c ∉ s.drop (i + 1) := by
  induction s generalizing i with
  | nil => simp [findLastOf] at h
  | cons x xs ih =>
    unfold findLastOf at h
    cases hx : findLastOf xs c with
    | some j =>
      rw [hx] at h
      simp only [Option.some.injEq] at h
      subst h
      obtain ⟨h1, h2⟩ := ih j hx
      refine ⟨?_, by simpa using h2⟩
      simp only [List.take_succ_cons, List.drop_succ_cons, List.cons_append]
      rw [← h1]
    | none =>
      rw [hx] at h
      by_cases hxc : x = c
      · rw [if_pos hxc] at h
        simp only [Option.some.injEq] at h
        subst h
        subst hxc
        exact ⟨by simp, by simpa using (findLastOf_eq_none xs x).mp hx⟩
      · rw [if_neg hxc] at h
        cases h

theorem entries_names {β : Type} (db : DescriptorDatabase β) (idxs : List Nat) :
    (∀ es, symbolEntries db idxs = some es → ∀ e ∈ es, e.isMessage = true ∧
      ∃ n, getSymbolNameAtIndex db e.id = some n ∧ e.name = getLastComponent n) ∧
    (∀ es, packageEntries db idxs = some es → ∀ e ∈ es, e.isMessage = false ∧
      ∃ p, getPackageAtIndex db e.id = some p ∧ e.name = getLastComponent p.full_name) := by
  induction idxs with
  | nil =>
    constructor <;>
    · intro es h e he
      simp only [symbolEntries, packageEntries, Option.some.injEq] at h
      subst h
      cases he
  | cons i rest ih =>
    constructor
    · intro es h e he
      unfold symbolEntries at h
      cases hn : getSymbolNameAtIndex db i with
      | none => rw [hn] at h; cases h
      | some n =>
        rw [hn] at h
        cases hr : symbolEntries db rest with
        | none => rw [hr] at h; cases h
        | some rs =>
          rw [hr] at h
          simp only [Option.map_some', Option.some.injEq] at h
          subst h
          rcases List.mem_cons.mp he with he | he
          · subst he
            exact ⟨rfl, n, hn, rfl⟩
          · exact ih.1 rs hr e he
    · intro es h e he
      unfold packageEntries at h
      cases hn : getPackageAtIndex db i with
      | none => rw [hn] at h; cases h
      | some p =>
        rw [hn] at h
        cases hr : packageEntries db rest with
        | none => rw [hr] at h; cases h
        | some rs =>
          rw [hr] at h
          simp only [Option.map_some', Option.some.injEq] at h
          subst h
          rcases List.mem_cons.mp he with he | he
          · subst he
            exact ⟨rfl, p, hn, rfl⟩
          · exact ih.2 rs hr e he

/-- C18: for every string `s`, `getLastComponent s` contains no dot and is what
follows the last dot of `s`: either `s` has no dot and the result is `s`, or
`s = p ++ "." ++ getLastComponent s` for some `p`. The result is empty when `s`
ends with a dot. Every entry of a namespace listing carries this function
applied to the full name of the symbol, or package, with the entry's id. -/
theorem C18_last_component {β : Type} (db : DescriptorDatabase β) (s : String) :
    '.' ∉ (getLastComponent s).data ∧
    (('.' ∉ s.data ∧ getLastComponent s = s) ∨
      ∃ p : String, s = p ++ "." ++ getLastComponent s) ∧
    (s.data.getLast? = some '.' → getLastComponent s = "") ∧
    (∀ package es, getNamespaceEntriesForPackage db package = some es → ∀ e ∈ es,
      (e.isMessage = true ∧
        ∃ n, getSymbolNameAtIndex db e.id = some n ∧ e.name = getLastComponent n) ∨
      (e.isMessage = false ∧
        ∃ p, getPackageAtIndex db e.id = some p ∧ e.name = getLastComponent p.full_name)) := by
  refine ⟨?_, ?_, ?_, ?_⟩
  · unfold getLastComponent
    cases h : findLastOf s.data '.' with
    | none => exact (findLastOf_eq_none _ _).mp h
    | some i => exact (findLastOf_eq_some _ _ _ h).2
  · unfold getLastComponent
    cases h : findLastOf s.data '.' with
    | none => exact Or.inl ⟨(findLastOf_eq_none _ _).mp h, rfl⟩
    | some i =>
      refine Or.inr ⟨String.mk (s.data.take i), ?_⟩
      apply String.ext
      simp only [String.data_append]
      rw [List.append_assoc]
      exact (findLastOf_eq_some _ _ _ h).1
  · intro hlast
    unfold getLastComponent
    cases h : findLastOf s.data '.' with
    | none =>
      have hn := (findLastOf_eq_none _ _).mp h
      exact absurd (List.mem_of_getLast?_eq_some hlast) hn
    | some i =>
      obtain ⟨h1, h2⟩ := findLastOf_eq_some _ _ _ h
      cases hd : s.data.drop (i + 1) with
      | nil =>
        show String.mk (s.data.drop (i + 1)) = ""
        rw [hd]
      | cons y ys =>
        exfalso
        rw [hd] at h1 h2
        rw [h1] at hlast
        have hmem : '.' ∈ y :: ys := by
          rw [List.getLast?_append_cons, List.getLast?_cons_cons] at hlast
          exact List.mem_of_getLast?_eq_some hlast
        exact h2 hmem
  · intro package es h e he
    unfold getNamespaceEntriesForPackage at h
    cases hs : symbolEntries db package.symbol_indexes with
    | none => rw [hs] at h; cases h
    | some syms =>
      rw [hs] at h
      cases hp : packageEntries db package.nested_package_indexes with
      | none => rw [hp] at h; cases h
      | some pkgs =>
        rw [hp] at h
        simp only [Option.map_some', Option.some.injEq] at h
        subst h
        rcases List.mem_append.mp he with he | he
        · exact Or.inl ((entries_names db _).1 syms hs e he)
        · exact Or.inr ((entries_names db _).2 pkgs hp e he)

/-! ## File lookups -/

theorem fillIndexByName_hit (names : List String) (q : String) (h : q ∈ names) :
    ∃ j, fillIndexByName names 0 FlatMap.empty q = some j ∧ j < names.length ∧
      names[j]? = some q := by
  cases hl : fillIndexByName names 0 FlatMap.empty q with
  | none =>
    rw [fillIndexByName_eq_none] at hl
    exact absurd h hl.2
  | some j =>
    rcases fillIndexByName_eq_some _ _ _ _ _ hl with ⟨hm, _⟩ | ⟨_, h2, h3⟩
    · simp [FlatMap.empty] at hm
    · exact ⟨j, rfl, by simpa using h2, by simpa using h3⟩

/-- C13 (counterexample): when the decoder rejects the bytes of an entry, the
lookup of a file name that a File entry carries returns `false` and leaves the
output as it was, as the lookup of a missing name does. -/
theorem C13_found_name_can_return_false :
    (∃ f ∈ exampleFactory._descriptorDatabase._index.files, f.file_name = "a.proto") ∧
    FindFileByName (fun _ _ => (false, 0)) exampleFactory._descriptorDatabase "a.proto" 0
      = .returned ⟨false, 0, [(0, 1)]⟩ ∧
    (∀ f ∈ exampleFactory._descriptorDatabase._index.files, f.file_name ≠ "b.proto") ∧
    FindFileByName (fun _ _ => (false, 0)) exampleFactory._descriptorDatabase "b.proto" 0
      = .returned ⟨false, 0, []⟩ :=
  ⟨⟨⟨"a.proto", 0, 1⟩, by decide, rfl⟩, rfl, by decide, rfl⟩

/-- C13 (amended): after `finaliseIndex`, `FindFileByName name` returns `false`
without decoding, its output untouched, when no File entry has that file name;
otherwise it decodes the `length` bytes at the `data_offset` of the File entry
the name maps to and returns the decoder's verdict and output; so it returns
`true` only when a File entry has that name. `FindFileContainingSymbol symbol`
returns `false` without decoding when no Symbol entry has that full name;
otherwise it is `copyProtoOfFile` at that symbol's `file_index` (with pairwise
distinct file names and an in-range `file_index`, `FindFileByName` of that file's
name); so it returns `true` only when a Symbol entry has that name. -/
theorem C13_file_lookups {β φ : Type} (parse : Nat → Int → Bool × φ)
    (db : DescriptorDatabase β) (name : String) (output : φ) :
    ((∀ f ∈ (finaliseIndex db)._index.files, f.file_name ≠ name) →
      FindFileByName parse (finaliseIndex db) name output = .returned ⟨false, output, []⟩) ∧
    ((∃ f ∈ (finaliseIndex db)._index.files, f.file_name = name) →
      ∃ i file, (finaliseIndex db)._fileIndexByName.find name = some i ∧
        (finaliseIndex db)._index.files.get? i = some file ∧ file.file_name = name ∧
        FindFileByName parse (finaliseIndex db) name output
          = .returned ⟨(parse file.data_offset (toInt32 file.length)).1,
              (parse file.data_offset (toInt32 file.length)).2,
              [(file.data_offset, toInt32 file.length)]⟩) ∧
    (∀ r, FindFileByName parse (finaliseIndex db) name output = .returned r →
      r.result = true → ∃ f ∈ (finaliseIndex db)._index.files, f.file_name = name) ∧
    ((∀ s ∈ (finaliseIndex db)._index.symbols, s.full_name ≠ name) →
      FindFileContainingSymbol parse (finaliseIndex db) name output
        = .returned ⟨false, output, []⟩) ∧
    ((∃ s ∈ (finaliseIndex db)._index.symbols, s.full_name = name) →
      ∃ i symbol, getSymbolIndexForName (finaliseIndex db) name = some i ∧
        (finaliseIndex db)._index.symbols.get? i = some symbol ∧ symbol.full_name = name ∧
        FindFileContainingSymbol parse (finaliseIndex db) name output
          = copyProtoOfFile parse (finaliseIndex db) symbol.file_index output ∧
        (((finaliseIndex db)._index.files.map File.file_name).Nodup →
          ∀ file, (finaliseIndex db)._index.files.get? symbol.file_index = some file →
            FindFileContainingSymbol parse (finaliseIndex db) name output
              = FindFileByName parse (finaliseIndex db) file.file_name output)) ∧
    (∀ r, FindFileContainingSymbol parse (finaliseIndex db) name output = .returned r →
      r.result = true → ∃ s ∈ (finaliseIndex db)._index.symbols, s.full_name = name) := by
  have hidx : (finaliseIndex db)._index = db._index := rfl
  have hfmap : ∀ q, (finaliseIndex db)._fileIndexByName.find q
      = fillIndexByName (db._index.files.map File.file_name) 0 FlatMap.empty q := fun _ => rfl
  have hsmap : ∀ q, (finaliseIndex db)._symbolIndexByName.find q
      = fillIndexByName (db._index.symbols.map Symbol.full_name) 0 FlatMap.empty q :=
    fun _ => rfl
  have hcopy : ∀ k file, db._index.files.get? k = some file →
      copyProtoOfFile parse (finaliseIndex db) k output
        = .returned ⟨(parse file.data_offset (toInt32 file.length)).1,
            (parse file.data_offset (toInt32 file.length)).2,
            [(file.data_offset, toInt32 file.length)]⟩ := by
    intro k file hk
    unfold copyProtoOfFile
    rw [hidx, entryAt_of_lt _ _ (lt_of_get?_eq_some _ _ _ hk)]
    simp only [hk]
  -- the branch taken for a file name that some entry carries
  have hfile : ∀ q, q ∈ db._index.files.map File.file_name →
      ∃ i file, (finaliseIndex db)._fileIndexByName.find q = some i ∧
        db._index.files.get? i = some file ∧ file.file_name = q ∧
        FindFileByName parse (finaliseIndex db) q output
          = .returned ⟨(parse file.data_offset (toInt32 file.length)).1,
              (parse file.data_offset (toInt32 file.length)).2,
              [(file.data_offset, toInt32 file.length)]⟩ := by
    intro q hq
    obtain ⟨j, hj, _, hjn⟩ := fillIndexByName_hit _ q hq
    rw [List.getElem?_map] at hjn
    cases hf : db._index.files[j]? with
    | none => rw [hf] at hjn; cases hjn
    | some file =>
      rw [hf] at hjn
      simp only [Option.map_some', Option.some.injEq] at hjn
      have hget : db._index.files.get? j = some file := by simpa using hf
      refine ⟨j, file, (hfmap q).trans hj, hget, hjn, ?_⟩
      unfold FindFileByName
      rw [hfmap q, hj]
      exact hcopy j file hget
  -- the branch taken for a symbol name that some entry carries
  have hsym : ∀ q, q ∈ db._index.symbols.map Symbol.full_name →
      ∃ i symbol, (finaliseIndex db)._symbolIndexByName.find q = some i ∧
        db._index.symbols.get? i = some symbol ∧ symbol.full_name = q ∧
        FindFileContainingSymbol parse (finaliseIndex db) q output
          = copyProtoOfFile parse (finaliseIndex db) symbol.file_index output := by
    intro q hq
    obtain ⟨j, hj, _, hjn⟩ := fillIndexByName_hit _ q hq
    rw [List.getElem?_map] at hjn
    cases hf : db._index.symbols[j]? with
    | none => rw [hf] at hjn; cases hjn
    | some symbol =>
      rw [hf] at hjn
      simp only [Option.map_some', Option.some.injEq] at hjn
      have hget : db._index.symbols.get? j = some symbol := by simpa using hf
      refine ⟨j, symbol, (hsmap q).trans hj, hget, hjn, ?_⟩
      unfold FindFileContainingSymbol
      rw [hsmap q, hj]
      simp only [hidx, entryAt_of_lt _ _ (lt_of_get?_eq_some _ _ _ hget), hget]
  have hfmiss : (∀ f ∈ db._index.files, f.file_name ≠ name) →
      FindFileByName parse (finaliseIndex db) name output = .returned ⟨false, output, []⟩ := by
    intro h
    have hnot : name ∉ db._index.files.map File.file_name := by
      intro hm
      obtain ⟨f, hf, hname⟩ := List.mem_map.mp hm
      exact h f hf hname
    unfold FindFileByName
    rw [hfmap, (fillIndexByName_eq_none _ _ _ _).mpr ⟨rfl, hnot⟩]
  have hsmiss : (∀ s ∈ db._index.symbols, s.full_name ≠ name) →
      FindFileContainingSymbol parse (finaliseIndex db) name output
        = .returned ⟨false, output, []⟩ := by
    intro h
    have hnot : name ∉ db._index.symbols.map Symbol.full_name := by
      intro hm
      obtain ⟨s, hs, hname⟩ := List.mem_map.mp hm
      exact h s hs hname
    unfold FindFileContainingSymbol
    rw [hsmap, (fillIndexByName_eq_none _ _ _ _).mpr ⟨rfl, hnot⟩]
  refine ⟨?_, ?_, ?_, ?_, ?_, ?_⟩
  · intro h
    exact hfmiss (hidx ▸ h)
  · rintro ⟨f, hf, hname⟩
    rw [hidx] at hf
    obtain ⟨i, file, h1, h2, h3, h4⟩ := hfile name (List.mem_map.mpr ⟨f, hf, hname⟩)
    exact ⟨i, file, h1, h2, h3, h4⟩
  · intro r hr htrue
    by_contra hno
    have hall : ∀ f ∈ db._index.files, f.file_name ≠ name :=
      fun f hf hname => hno ⟨f, hidx ▸ hf, hname⟩
    rw [hfmiss hall] at hr
    cases hr
    cases htrue
  · intro h
    exact hsmiss (hidx ▸ h)
  · rintro ⟨s, hs, hname⟩
    rw [hidx] at hs
    obtain ⟨i, symbol, h1, h2, h3, h4⟩ := hsym name (List.mem_map.mpr ⟨s, hs, hname⟩)
    refine ⟨i, symbol, h1, h2, h3, h4, ?_⟩
    intro hnd file hfile2
    rw [hidx] at hnd hfile2
    rw [h4, hcopy _ file hfile2]
    have hk : (db._index.files.map File.file_name)[symbol.file_index]? = some file.file_name := by
      rw [List.getElem?_map]
      have : db._index.files[symbol.file_index]? = some file := by simpa using hfile2
      rw [this]
      rfl
    have hmapv := fillIndexByName_nodup _ 0 FlatMap.empty _ _ hnd hk
    unfold FindFileByName
    rw [hfmap, hmapv, Nat.zero_add]
    exact (hcopy _ file hfile2).symm
  · intro r hr htrue
    by_contra hno
    have hall : ∀ s ∈ db._index.symbols, s.full_name ≠ name :=
      fun s hs hname => hno ⟨s, hidx ▸ hs, hname⟩
    rw [hsmiss hall] at hr
    cases hr
    cases htrue

/-- C13 (witness): with a decoder that accepts, the lookup of the file name
`abc.proto` of the scenario index decodes the 1 byte at offset 1 and returns
`true`; the decoder here answers with the sum of pointer and size. -/
theorem C13_file_lookups_witness :
    ∃ i file, (finaliseIndex scenarioDb)._fileIndexByName.find "abc.proto" = some i ∧
      (finaliseIndex scenarioDb)._index.files.get? i = some file ∧
      file.file_name = "abc.proto" ∧
      FindFileByName (fun ptr size => (true, (ptr : Int) + size)) (finaliseIndex scenarioDb)
          "abc.proto" 0
        = .returned ⟨true, (file.data_offset : Int) + toInt32 file.length,
            [(file.data_offset, toInt32 file.length)]⟩ :=
  (C13_file_lookups (fun ptr size => (true, (ptr : Int) + size)) scenarioDb "abc.proto" 0).2.1
    ⟨⟨"abc.proto", 1, 1⟩, by decide, rfl⟩

/-- C15: for every database state and all arguments, `FindFileContainingExtension`
and `FindAllExtensionNumbers` return `false` and leave their output argument and
the database as they were. -/
theorem C15_extension_lookups_not_found {β φ : Type} (db : DescriptorDatabase β)
    (containingType extendeeType : String) (fieldNumber : Int) (output : φ)
    (numbers : List Int) :
    FindFileContainingExtension db containingType fieldNumber output = (false, output, db) ∧
    FindAllExtensionNumbers db extendeeType numbers = (false, numbers, db) :=
  ⟨rfl, rfl⟩

/-! ## Sequences of calls -/

theorem load_flag {β π : Type} (env : Env β π) (db : DescriptorDatabase β) (data : BytesView)
    (t : ExceptionTracker) (r : LoadResult β)
    (h : addFileDescriptorSet env db data t = .returned r) :
    (r.db._prebuiltIndexLoaded = true ↔
      db._prebuiltIndexLoaded = true ∨ r.fastLoaded = true) ∧
    r.db._skipProtoIndex = db._skipProtoIndex := by
  unfold addFileDescriptorSet at h
  split at h
  · cases h
  · split at h
    · split at h
      · cases h
        have htr := withBuilder_trace env db
          (data.subrange ((12 + indexSize data) % 2 ^ 32) (bodySize data)) t
        refine ⟨?_, ?_⟩
        · rw [htr.2]
          have hno : (addFileDescriptorSetWithBuilder env db
              (data.subrange ((12 + indexSize data) % 2 ^ 32) (bodySize data)) t).fastLoaded
              = false := by
            unfold LoadResult.fastLoaded
            rcases htr.1 with e | e <;> rw [e] <;> simp [Event.isParse]
          rw [hno]
          simp
        · unfold addFileDescriptorSetWithBuilder buildAndFinalise
          split
          · rfl
          · split <;> rfl
      · unfold loadPrebuiltIndex at h
        simp only at h
        split at h
        · cases h
          simp [LoadResult.fastLoaded]
        · split at h
          · split at h
            · cases h
            · cases h
              simp [LoadResult.fastLoaded]
          · cases h
            simp [LoadResult.fastLoaded, Event.isParse, finaliseIndex]
    · cases h
      have htr := withBuilder_trace env db data t
      refine ⟨?_, ?_⟩
      · rw [htr.2]
        have hno : (addFileDescriptorSetWithBuilder env db data t).fastLoaded = false := by
          unfold LoadResult.fastLoaded
          rcases htr.1 with e | e <;> rw [e] <;> simp [Event.isParse]
        rw [hno]
        simp
      · unfold addFileDescriptorSetWithBuilder buildAndFinalise
        split
        · rfl
        · split <;> rfl

theorem parseAndLoad_flag {β π : Type} (env : Env β π) (db : DescriptorDatabase β)
    (filename content : String) (t : ExceptionTracker) (r : LoadResult β)
    (h : parseAndAddFileDescriptorSet env db filename content t = .returned r) :
    r.db._prebuiltIndexLoaded = db._prebuiltIndexLoaded ∧ r.fastLoaded = false ∧
    r.db._skipProtoIndex = db._skipProtoIndex := by
  unfold parseAndAddFileDescriptorSet at h
  split at h
  · cases h
  · split at h
    · cases h
      exact ⟨rfl, by simp [LoadResult.fastLoaded, Event.isParse], rfl⟩
    · cases h
      have htr := buildAndFinalise_trace env db ‹β› ‹ExceptionTracker›
        [Event.builderParseAndAdd filename content]
      refine ⟨htr.2, ?_, ?_⟩
      · unfold LoadResult.fastLoaded
        rw [htr.1]
        simp [Event.isParse]
      · unfold buildAndFinalise
        split <;> rfl

theorem resolve_frame {β π : Type} (env : Env β π) (f : ProtobufMessageFactory β π)
    (id : Nat) (t : ExceptionTracker) (r : ResolveResult β π)
    (h : getDescriptorAtIndex env f id t = .returned r) :
    r.factory._descriptorDatabase
      = { f._descriptorDatabase with
          _descriptors := r.factory._descriptorDatabase._descriptors } ∧
    (r.factory._descriptorDatabase._descriptors = f._descriptorDatabase._descriptors ∨
      (f._descriptorDatabase._descriptors.get? id = some none ∧
        r.factory._descriptorDatabase._descriptors
          = f._descriptorDatabase._descriptors.set id r.descriptor)) := by
  unfold getDescriptorAtIndex at h
  split at h
  · cases h
    exact ⟨rfl, Or.inl rfl⟩
  · split at h
    · cases h
    · cases h
      exact ⟨rfl, Or.inl rfl⟩
    · rename_i hslot
      split at h
      · cases h
      · simp only at h
        split at h
        · split at h
          · cases h
          · unfold storeAndReturn setDescriptorOfSymbolAtIndex at h
            split at h
            · cases h
            · rename_i hset
              split at hset
              · cases hset
                cases h
                exact ⟨rfl, Or.inr ⟨hslot, rfl⟩⟩
              · cases hset
        · unfold storeAndReturn setDescriptorOfSymbolAtIndex at h
          split at h
          · cases h
          · rename_i hset
            split at hset
            · cases hset
              cases h
              exact ⟨rfl, Or.inr ⟨hslot, rfl⟩⟩
            · cases hset

theorem failed_load_flag {β π : Type} (env : Env β π) (db : DescriptorDatabase β)
    (data : BytesView) (t : ExceptionTracker) (r : LoadResult β)
    (h : addFileDescriptorSet env db data t = .returned r) (hf : r.result = false) :
    r.db._prebuiltIndexLoaded = db._prebuiltIndexLoaded := by
  have hl := (load_flag env db data t r h).1
  have hno : r.fastLoaded = false := by
    unfold LoadResult.fastLoaded
    rw [hf]
    rfl
  rw [hno] at hl
  cases h1 : r.db._prebuiltIndexLoaded <;> cases h2 : db._prebuiltIndexLoaded <;> simp_all

theorem step_flag {β π : Type} (env : Env β π) (f f1 : ProtobufMessageFactory β π)
    (call : Call) (records : List (LoadResult β))
    (h : step env f call = .returned (f1, records)) :
    (f1._descriptorDatabase._prebuiltIndexLoaded = true ↔
      f._descriptorDatabase._prebuiltIndexLoaded = true ∨ ∃ r ∈ records, r.fastLoaded = true) ∧
    f1._descriptorDatabase._skipProtoIndex = f._descriptorDatabase._skipProtoIndex := by
  cases call with
  | load data tracker =>
    simp only [step] at h
    cases hl : f.load env data tracker with
    | returned r =>
      rw [hl] at h
      cases h
      have := load_flag env f._descriptorDatabase data tracker r hl
      simpa [afterLoad] using this
    | aborted => rw [hl] at h; cases h
    | undefined => rw [hl] at h; cases h
  | parseAndLoad filename content tracker =>
    simp only [step] at h
    cases hl : f.parseAndLoad env filename content tracker with
    | returned r =>
      rw [hl] at h
      cases h
      have := parseAndLoad_flag env f._descriptorDatabase filename content tracker r hl
      simp [afterLoad, this.1, this.2.1, this.2.2]
    | aborted => rw [hl] at h; cases h
    | undefined => rw [hl] at h; cases h
  | resolve index tracker =>
    simp only [step] at h
    cases hl : getDescriptorAtIndex env f index tracker with
    | returned r =>
      rw [hl] at h
      cases h
      have := (resolve_frame env f index tracker r hl).1
      rw [this]
      simp
    | aborted => rw [hl] at h; cases h
    | undefined => rw [hl] at h; cases h

theorem run_flag {β π : Type} (env : Env β π) (calls : List Call)
    (f f1 : ProtobufMessageFactory β π) (history history1 : List (LoadResult β))
    (h : run env f history calls = .returned (f1, history1))
    (hinv : f._descriptorDatabase._prebuiltIndexLoaded = true ↔
      ∃ r ∈ history, r.fastLoaded = true) :
    (f1._descriptorDatabase._prebuiltIndexLoaded = true ↔
      ∃ r ∈ history1, r.fastLoaded = true) ∧
    f1._descriptorDatabase._skipProtoIndex = f._descriptorDatabase._skipProtoIndex := by
  induction calls generalizing f history with
  | nil =>
    unfold run at h
    cases h
    exact ⟨hinv, rfl⟩
  | cons call rest ih =>
    unfold run at h
    cases hs : step env f call with
    | returned p =>
      obtain ⟨f2, records⟩ := p
      rw [hs] at h
      have hst := step_flag env f f2 call records hs
      have := ih f2 (history ++ records) h (by
        rw [hst.1, hinv]
        simp only [List.mem_append]
        constructor
        · rintro (⟨r, hr, hf⟩ | ⟨r, hr, hf⟩)
          · exact ⟨r, Or.inl hr, hf⟩
          · exact ⟨r, Or.inr hr, hf⟩
        · rintro ⟨r, hr | hr, hf⟩
          · exact Or.inl ⟨r, hr, hf⟩
          · exact Or.inr ⟨r, hr, hf⟩)
      exact ⟨this.1, this.2.trans hst.2⟩
    | aborted => rw [hs] at h; cases h
    | undefined => rw [hs] at h; cases h

/-- C14 (counterexample): with `assert` compiled out, a load made while the
fast-loaded flag is true does not stop: the second load of `overlongBuffer`
returns. -/
theorem C14_second_load_returns_without_asserts :
    ∃ r1 r2,
      (ProtobufMessageFactory.new Unit false ()).load (exampleEnv true overlongIndex none)
        overlongBuffer ⟨[]⟩ = .returned r1 ∧
      r1.db._prebuiltIndexLoaded = true ∧
      (afterLoad (ProtobufMessageFactory.new Unit false ()) r1).load
        (exampleEnv true overlongIndex none) overlongBuffer ⟨[]⟩ = .returned r2 :=
  ⟨_, _, rfl, rfl, rfl⟩

/-- C14 (amended): in a build with `assert` compiled in, in every state reached
from a fresh factory by a sequence of calls: the fast-loaded flag is true exactly
when some earlier load took the fast path and returned `true`; while it is true
every `load` and `parseAndLoad` stops on the entry assertion; and a load that
returns `false` leaves the flag false, so that a retry passes the entry
assertion (a `parseAndLoad` retry returns, a `load` retry can only stop on the
offset assertion of the fast path). -/
theorem C14_fast_loaded_flag {β π : Type} (env : Env β π) (skipProtoIndex : Bool) (pool : π)
    (calls : List Call) (f : ProtobufMessageFactory β π) (history : List (LoadResult β))
    (hassert : env.assertsEnabled = true)
    (h : run env (ProtobufMessageFactory.new β skipProtoIndex pool) [] calls
      = .returned (f, history)) :
    (f._descriptorDatabase._prebuiltIndexLoaded = true ↔
      ∃ r ∈ history, r.fastLoaded = true) ∧
    (f._descriptorDatabase._prebuiltIndexLoaded = true →
      (∀ data t, f.load env data t = .aborted) ∧
      (∀ filename content t, f.parseAndLoad env filename content t = .aborted)) ∧
    (∀ data t r, f.load env data t = .returned r → r.result = false →
      r.db._prebuiltIndexLoaded = false ∧
      (∀ filename content t2, ∃ r2,
        (afterLoad f r).parseAndLoad env filename content t2 = .returned r2) ∧
      (∀ data2 t2, (afterLoad f r).load env data2 t2 = .aborted →
        r.db._skipProtoIndex = false ∧ data2.size > 12 ∧ data2.bytes.take 8 = signature ∧
        (patchFiles (pBody data2) (bodySize data2)
          (env.ParseFromArray (pIndex data2) (toInt32 (indexSize data2))).2.files).1
          = false)) := by
  have hrun := run_flag env calls _ f [] history h (by
    simp [ProtobufMessageFactory.new, DescriptorDatabase.new])
  refine ⟨hrun.1, ?_, ?_⟩
  · intro hflag
    constructor
    · intro data t
      unfold ProtobufMessageFactory.load addFileDescriptorSet
      rw [hassert, hflag]
      rfl
    · intro filename content t
      unfold ProtobufMessageFactory.parseAndLoad parseAndAddFileDescriptorSet
      rw [hassert, hflag]
      rfl
  · intro data t r hload hfalse
    have hbefore : f._descriptorDatabase._prebuiltIndexLoaded = false := by
      cases hb : f._descriptorDatabase._prebuiltIndexLoaded with
      | false => rfl
      | true =>
        unfold ProtobufMessageFactory.load addFileDescriptorSet at hload
        rw [hassert, hb] at hload
        cases hload
    have hflag : r.db._prebuiltIndexLoaded = false := by
      have := (failed_load_flag env f._descriptorDatabase data t r hload hfalse)
      rw [this, hbefore]
    refine ⟨hflag, ?_, ?_⟩
    · intro filename content t2
      unfold ProtobufMessageFactory.parseAndLoad parseAndAddFileDescriptorSet afterLoad
      rw [hflag, Bool.and_false, if_neg Bool.false_ne_true]
      split <;> exact ⟨_, rfl⟩
    · intro data2 t2 hab
      unfold ProtobufMessageFactory.load addFileDescriptorSet afterLoad at hab
      rw [hflag, Bool.and_false, if_neg Bool.false_ne_true] at hab
      simp only at hab
      split at hab
      · rename_i hfast
        split at hab
        · cases hab
        · rename_i hskip
          refine ⟨by simpa using hskip, hfast.1, hfast.2, ?_⟩
          unfold loadPrebuiltIndex at hab
          simp only at hab
          split at hab
          · cases hab
          · split at hab
            · rename_i hpatch
              simpa using hpatch
            · cases hab
      · cases hab

/-- C14 (witness): after the fast-path load of `overlongBuffer` the flag is true
and every further load stops on the entry assertion. -/
theorem C14_fast_loaded_flag_witness :
    ∃ f history,
      run (assertingEnv true overlongIndex none) (ProtobufMessageFactory.new Unit false ()) []
        [Call.load overlongBuffer ⟨[]⟩] = .returned (f, history) ∧
      f._descriptorDatabase._prebuiltIndexLoaded = true ∧
      ∀ data t, f.load (assertingEnv true overlongIndex none) data t = .aborted :=
  ⟨_, _, rfl, rfl,
    ((C14_fast_loaded_flag (assertingEnv true overlongIndex none) false ()
      [Call.load overlongBuffer ⟨[]⟩] _ _ rfl rfl).2.1 rfl).1⟩

theorem successful_load_cache {β π : Type} (env : Env β π) (db : DescriptorDatabase β)
    (data : BytesView) (filename content : String) (t : ExceptionTracker) (r : LoadResult β)
    (h : addFileDescriptorSet env db data t = .returned r ∨
      parseAndAddFileDescriptorSet env db filename content t = .returned r)
    (hr : r.result = true) :
    r.db._descriptors = List.replicate (getSymbolsSize r.db) none := by
  have hbuild : ∀ (b : β) (t1 : ExceptionTracker) (tr : List Event) (db1 : DescriptorDatabase β),
      (buildAndFinalise env db1 b t1 tr).result = true →
      (buildAndFinalise env db1 b t1 tr).db._descriptors
        = List.replicate (getSymbolsSize (buildAndFinalise env db1 b t1 tr).db) none := by
    intro b t1 tr db1 hres
    unfold buildAndFinalise at hres ⊢
    split
    · rename_i heq
      rw [heq] at hres
      simp at hres
    · rfl
  have hwith : ∀ (d : BytesView),
      (addFileDescriptorSetWithBuilder env db d t).result = true →
      (addFileDescriptorSetWithBuilder env db d t).db._descriptors
        = List.replicate (getSymbolsSize (addFileDescriptorSetWithBuilder env db d t).db)
          none := by
    intro d hres
    unfold addFileDescriptorSetWithBuilder at hres ⊢
    split
    · rename_i heq
      rw [heq] at hres
      simp at hres
    · rename_i heq
      rw [heq] at hres
      exact hbuild _ _ _ _ hres
  rcases h with h | h
  · unfold addFileDescriptorSet at h
    split at h
    · cases h
    · split at h
      · split at h
        · cases h
          exact hwith _ hr
        · unfold loadPrebuiltIndex at h
          simp only at h
          split at h
          · cases h
            simp at hr
          · split at h
            · split at h
              · cases h
              · cases h
                simp at hr
            · cases h
              rfl
      · cases h
        exact hwith _ hr
  · unfold parseAndAddFileDescriptorSet at h
    split at h
    · cases h
    · split at h
      · cases h
        simp at hr
      · cases h
        exact hbuild _ _ _ _ hr

/-- C16 (defect of the code): the claim asks that in every reachable state the
descriptor cache have `symbols_size()` slots. A fast-path load that returns
`false` has already replaced `_index` and never reaches `finaliseIndex`: from a
fresh factory, after the failed load of an index with one symbol (a file offset
beyond the body region with `assert` compiled out, or a decoder that reports
failure with one symbol decoded), `symbols_size()` is 1, the cache has no slot,
and `getDescriptorAtIndex 0` passes the bounds check and reads outside the
cache. -/
theorem C16_failed_load_leaves_cache_short :
    (∃ f history,
      run (exampleEnv true badOffsetIndex none) (ProtobufMessageFactory.new Unit false ()) []
        [Call.load overlongBuffer ⟨[]⟩] = .returned (f, history) ∧
      history.map LoadResult.result = [false] ∧
      getSymbolsSize f._descriptorDatabase = 1 ∧
      f._descriptorDatabase._descriptors.length = 0 ∧
      getDescriptorAtIndex (exampleEnv true badOffsetIndex none) f 0 ⟨[]⟩ = .undefined) ∧
    (∃ f history,
      run (assertingEnv false exampleIndex none) (ProtobufMessageFactory.new Unit false ()) []
        [Call.load overlongBuffer ⟨[]⟩] = .returned (f, history) ∧
      history.map LoadResult.result = [false] ∧
      getSymbolsSize f._descriptorDatabase = 1 ∧
      f._descriptorDatabase._descriptors.length = 0 ∧
      getDescriptorAtIndex (assertingEnv false exampleIndex none) f 0 ⟨[]⟩ = .undefined) :=
  ⟨⟨_, _, rfl, rfl, rfl, rfl, rfl⟩, ⟨_, _, rfl, rfl, rfl, rfl, rfl⟩⟩

theorem resolve_slots {β π : Type} (env : Env β π) (f : ProtobufMessageFactory β π)
    (id : Nat) (t : ExceptionTracker) (r : ResolveResult β π)
    (h : getDescriptorAtIndex env f id t = .returned r) :
    r.factory._descriptorDatabase._descriptors.length
      = f._descriptorDatabase._descriptors.length ∧
    (∀ j, j ≠ id → r.factory._descriptorDatabase._descriptors.get? j
      = f._descriptorDatabase._descriptors.get? j) ∧
    (∀ j d, f._descriptorDatabase._descriptors.get? j = some (some d) →
      r.factory._descriptorDatabase._descriptors.get? j = some (some d)) := by
  rcases (resolve_frame env f id t r h).2 with e | ⟨hslot, e⟩
  · rw [e]
    exact ⟨rfl, fun _ _ => rfl, fun _ _ hd => hd⟩
  · rw [e]
    refine ⟨by simp, ?_, ?_⟩
    · intro j hj
      simp only [List.get?_eq_getElem?]
      exact List.getElem?_set_ne (Ne.symm hj)
    · intro j d hd
      have hj : j ≠ id := by
        intro e2
        rw [e2, hslot] at hd
        cases hd
      simp only [List.get?_eq_getElem?] at hd ⊢
      rw [List.getElem?_set_ne (Ne.symm hj)]
      exact hd

theorem entries_congr {β : Type} (db db1 : DescriptorDatabase β) (hidx : db1._index = db._index)
    (idxs : List Nat) :
    symbolEntries db1 idxs = symbolEntries db idxs ∧
    packageEntries db1 idxs = packageEntries db idxs := by
  induction idxs with
  | nil => exact ⟨rfl, rfl⟩
  | cons i rest ih =>
    constructor
    · simp only [symbolEntries, getSymbolNameAtIndex, hidx, ih.1]
    · simp only [packageEntries, getPackageAtIndex, hidx, ih.2]

theorem listings_congr {β π : Type} (f f1 : ProtobufMessageFactory β π)
    (hidx : f1._descriptorDatabase._index = f._descriptorDatabase._index) :
    (∀ pid t, getNamespaceEntriesForId f1 pid t = getNamespaceEntriesForId f pid t) ∧
    getRootNamespaceEntries f1 = getRootNamespaceEntries f := by
  have hpk : ∀ p, getNamespaceEntriesForPackage f1._descriptorDatabase p
      = getNamespaceEntriesForPackage f._descriptorDatabase p := by
    intro p
    unfold getNamespaceEntriesForPackage
    rw [(entries_congr _ _ hidx _).1, (entries_congr _ _ hidx _).2]
  constructor
  · intro pid t
    simp only [getNamespaceEntriesForId, getPackagesSize, getPackageAtIndex, hidx, hpk]
  · simp only [getRootNamespaceEntries, getRootPackage, hidx, hpk]

/-- C17: a sequence of `getDescriptorAtIndex` calls changes nothing but the cache
slots of the ids it was called with: the index tables, the three name-to-id
maps, the retained buffers, the flags and the number of cache slots are
unchanged, every slot of another id is unchanged, a slot that holds a handle
keeps that handle, no load record is added, and `getSymbolIndexForName`,
`getNamespaceEntriesForId` and `getRootNamespaceEntries` return what they
returned before. A single call is the sequence of length one. -/
theorem C17_resolution_frame {β π : Type} (env : Env β π) (calls : List Call)
    (f f1 : ProtobufMessageFactory β π) (history history1 : List (LoadResult β))
    (hres : ∀ c ∈ calls, c.isResolve = true)
    (h : run env f history calls = .returned (f1, history1)) :
    f1._descriptorDatabase
      = { f._descriptorDatabase with _descriptors := f1._descriptorDatabase._descriptors } ∧
    f1._descriptorDatabase._descriptors.length = f._descriptorDatabase._descriptors.length ∧
    (∀ j, (∀ t, Call.resolve j t ∉ calls) →
      f1._descriptorDatabase._descriptors.get? j = f._descriptorDatabase._descriptors.get? j) ∧
    (∀ j d, f._descriptorDatabase._descriptors.get? j = some (some d) →
      f1._descriptorDatabase._descriptors.get? j = some (some d)) ∧
    history1 = history ∧
    (∀ name, getSymbolIndexForName f1._descriptorDatabase name
      = getSymbolIndexForName f._descriptorDatabase name) ∧
    (∀ pid t, getNamespaceEntriesForId f1 pid t = getNamespaceEntriesForId f pid t) ∧
    getRootNamespaceEntries f1 = getRootNamespaceEntries f := by
  have main : f1._descriptorDatabase
      = { f._descriptorDatabase with _descriptors := f1._descriptorDatabase._descriptors } ∧
    f1._descriptorDatabase._descriptors.length = f._descriptorDatabase._descriptors.length ∧
    (∀ j, (∀ t, Call.resolve j t ∉ calls) →
      f1._descriptorDatabase._descriptors.get? j = f._descriptorDatabase._descriptors.get? j) ∧
    (∀ j d, f._descriptorDatabase._descriptors.get? j = some (some d) →
      f1._descriptorDatabase._descriptors.get? j = some (some d)) ∧
    history1 = history := by
    induction calls generalizing f history with
    | nil =>
      unfold run at h
      cases h
      exact ⟨rfl, rfl, fun _ _ => rfl, fun _ _ hd => hd, rfl⟩
    | cons call rest ih =>
      unfold run at h
      cases call with
      | load data tracker =>
        have := hres _ (List.mem_cons_self _ _)
        simp [Call.isResolve] at this
      | parseAndLoad filename content tracker =>
        have := hres _ (List.mem_cons_self _ _)
        simp [Call.isResolve] at this
      | resolve id tracker =>
        simp only [step] at h
        cases hc : getDescriptorAtIndex env f id tracker with
        | returned r =>
          rw [hc] at h
          simp only [List.append_nil] at h
          obtain ⟨i1, i2, i3, i4, i5⟩ :=
            ih r.factory history (fun c hcm => hres c (List.mem_cons_of_mem _ hcm)) h
          have hfr := (resolve_frame env f id tracker r hc).1
          obtain ⟨s1, s2, s3⟩ := resolve_slots env f id tracker r hc
          refine ⟨?_, i2.trans s1, ?_, ?_, i5⟩
          · rw [i1, hfr]
          · intro j hj
            have hne : j ≠ id := by
              intro e
              exact hj tracker (e ▸ List.mem_cons_self _ _)
            rw [i3 j (fun t hm => hj t (List.mem_cons_of_mem _ hm)), s2 j hne]
          · intro j d hd
            exact i4 j d (s3 j d hd)
        | aborted => rw [hc] at h; cases h
        | undefined => rw [hc] at h; cases h
  obtain ⟨m1, m2, m3, m4, m5⟩ := main
  have hidx : f1._descriptorDatabase._index = f._descriptorDatabase._index := by
    rw [m1]
  have hsym : f1._descriptorDatabase._symbolIndexByName
      = f._descriptorDatabase._symbolIndexByName := by
    rw [m1]
  refine ⟨m1, m2, m3, m4, m5, ?_, (listings_congr f f1 hidx).1, (listings_congr f f1 hidx).2⟩
  intro name
  unfold getSymbolIndexForName
  rw [hsym]

/-- C17 (witness): resolving id 0 of `exampleFactory` with a pool that answers
with handle 7. -/
theorem C17_resolution_frame_witness :
    ∃ f1 history1,
      run (exampleEnv true exampleIndex (some 7)) exampleFactory [] [Call.resolve 0 ⟨[]⟩]
        = .returned (f1, history1) ∧
      f1._descriptorDatabase._descriptors = [some 7] ∧
      f1._descriptorDatabase._index = exampleFactory._descriptorDatabase._index ∧
      ∀ name, getSymbolIndexForName f1._descriptorDatabase name
        = getSymbolIndexForName exampleFactory._descriptorDatabase name :=
  ⟨_, _, rfl, rfl, rfl,
    (C17_resolution_frame (exampleEnv true exampleIndex (some 7)) [Call.resolve 0 ⟨[]⟩]
      exampleFactory _ [] _ (by decide) rfl).2.2.2.2.2.1⟩

/-! ## Duplicate names -/

theorem fillIndexByName_last (names : List String) (i : Nat) (m : FlatMap) (q : String)
    (j k : Nat) (h : fillIndexByName names i m q = some j) (hk : names[k]? = some q) :
    i + k ≤ j := by
  induction names generalizing i m k with
  | nil => simp at hk
  | cons n rest ih =>
    rw [fillIndexByName] at h
    cases k with
    | zero =>
      rcases fillIndexByName_eq_some _ _ _ _ _ h with ⟨hm, _⟩ | ⟨h1, _, _⟩
      · have e : n = q := by simpa using hk
        subst e
        have : i = j := by simpa [FlatMap.set] using hm
        omega
      · omega
    | succ k =>
      rw [List.getElem?_cons_succ] at hk
      have := ih (i + 1) _ k h hk
      omega

theorem fillIndexByName_largest (names : List String) (q : String) (k : Nat)
    (hk : names[k]? = some q) :
    ∃ j, fillIndexByName names 0 FlatMap.empty q = some j ∧ names[j]? = some q ∧ k ≤ j ∧
      ∀ k2, names[k2]? = some q → k2 ≤ j := by
  obtain ⟨j, hj, _, hjn⟩ := fillIndexByName_hit names q (List.getElem?_mem hk)
  refine ⟨j, hj, hjn, ?_, ?_⟩
  · have := fillIndexByName_last names 0 _ q j k hj hk
    omega
  · intro k2 hk2
    have := fillIndexByName_last names 0 _ q j k2 hj hk2
    omega

theorem patchFiles_in_bounds (p b : Nat) (fs : List File)
    (h : ∀ f ∈ fs, f.data_offset ≤ b) : (patchFiles p b fs).1 = true := by
  induction fs with
  | nil => rfl
  | cons f rest ih =>
    unfold patchFiles
    rw [if_neg (not_lt.mpr (h f (List.mem_cons_self _ _)))]
    exact ih (fun g hg => h g (List.mem_cons_of_mem _ hg))

/-- C19: after `finaliseIndex`, in each of the three tables a name carried by
entry `k` is mapped to the largest index carrying it, so the lookup of the name
of symbol `k` differs from `k` whenever a later symbol `k2 < symbols_size()` has the
same name; and the
fast path returns `true`, reporting nothing to the tracker, for every decoded
index whose file offsets are within the body region, whether or not names
repeat. -/
theorem C19_duplicate_names_last_wins {β π : Type} (env : Env β π)
    (db : DescriptorDatabase β) :
    (∀ k name, (db._index.files.map File.file_name)[k]? = some name →
      ∃ j, (finaliseIndex db)._fileIndexByName.find name = some j ∧
        ((finaliseIndex db)._index.files.map File.file_name)[j]? = some name ∧ k ≤ j ∧
        ∀ k2, (db._index.files.map File.file_name)[k2]? = some name → k2 ≤ j) ∧
    (∀ k name, (db._index.symbols.map Symbol.full_name)[k]? = some name →
      ∃ j, (finaliseIndex db)._symbolIndexByName.find name = some j ∧
        ((finaliseIndex db)._index.symbols.map Symbol.full_name)[j]? = some name ∧ k ≤ j ∧
        ∀ k2, (db._index.symbols.map Symbol.full_name)[k2]? = some name → k2 ≤ j) ∧
    (∀ k name, (db._index.packages.map Package.full_name)[k]? = some name →
      ∃ j, (finaliseIndex db)._packageIndexByName.find name = some j ∧
        ((finaliseIndex db)._index.packages.map Package.full_name)[j]? = some name ∧ k ≤ j ∧
        ∀ k2, (db._index.packages.map Package.full_name)[k2]? = some name → k2 ≤ j) ∧
    (∀ k k2 name, k < k2 → k2 < getSymbolsSize (finaliseIndex db) →
      getSymbolNameAtIndex (finaliseIndex db) k = some name →
      getSymbolNameAtIndex (finaliseIndex db) k2 = some name →
      getSymbolIndexForName (finaliseIndex db) name ≠ some k) ∧
    (∀ (data : BytesView) (t : ExceptionTracker),
      (env.assertsEnabled && db._prebuiltIndexLoaded) = false →
      db._skipProtoIndex = false → data.size > 12 → data.bytes.take 8 = signature →
      (env.ParseFromArray (pIndex data) (toInt32 (indexSize data))).1 = true →
      (∀ f ∈ (env.ParseFromArray (pIndex data) (toInt32 (indexSize data))).2.files,
        f.data_offset ≤ bodySize data) →
      ∃ r, addFileDescriptorSet env db data t = .returned r ∧ r.result = true ∧
        r.tracker = t ∧
        r.db._index.symbols
          = (env.ParseFromArray (pIndex data) (toInt32 (indexSize data))).2.symbols) := by
  refine ⟨?_, ?_, ?_, ?_, ?_⟩
  · intro k name hk
    exact fillIndexByName_largest _ name k hk
  · intro k name hk
    exact fillIndexByName_largest _ name k hk
  · intro k name hk
    exact fillIndexByName_largest _ name k hk
  · intro k k2 name hlt hk2lt hk hk2 heq
    have hnm : getSymbolNameAtIndex (finaliseIndex db) k2
        = (db._index.symbols.map Symbol.full_name)[k2]? := by
      rw [getSymbolNameAtIndex_of_lt (finaliseIndex db) k2 hk2lt]
      simp [finaliseIndex]
    rw [hnm] at hk2
    obtain ⟨j, hj, _, hle, _⟩ := fillIndexByName_largest _ name k2 hk2
    have : getSymbolIndexForName (finaliseIndex db) name = some j := hj
    rw [this] at heq
    simp only [Option.some.injEq] at heq
    omega
  · intro data t hassert hskip hsize hsig hparse hoff
    have hpatch := patchFiles_in_bounds (pBody data) (bodySize data) _ hoff
    have hcall : addFileDescriptorSet env db data t = loadPrebuiltIndex env db data t := by
      unfold addFileDescriptorSet
      rw [hassert, if_neg Bool.false_ne_true, if_pos ⟨hsize, hsig⟩, hskip,
        if_neg Bool.false_ne_true]
    rw [hcall]
    unfold loadPrebuiltIndex
    simp only [hparse, hpatch, Bool.not_true, Bool.false_eq_true, if_false]
    exact ⟨_, rfl, rfl, rfl, rfl⟩

/-- C19 (witness): on `duplicateIndex` the name `a.M`, carried by symbols 0 and
1, is mapped to 1, the file name `a.proto` to 1 and the package name `a` to 2;
and the fast path loads that index and returns `true` with an empty tracker. -/
theorem C19_duplicate_names_last_wins_witness :
    getSymbolIndexForName (finaliseIndex duplicateDb) "a.M" = some 1 ∧
    (finaliseIndex duplicateDb)._fileIndexByName.find "a.proto" = some 1 ∧
    (finaliseIndex duplicateDb)._packageIndexByName.find "a" = some 2 ∧
    ∃ r, addFileDescriptorSet (exampleEnv true duplicateIndex none)
        (DescriptorDatabase.new Unit false) overlongBuffer ⟨[]⟩ = .returned r ∧
      r.result = true ∧ r.tracker = ⟨[]⟩ ∧ r.db._index.symbols = duplicateIndex.symbols :=
  ⟨by decide, by decide, by decide,
    (C19_duplicate_names_last_wins (exampleEnv true duplicateIndex none)
      (DescriptorDatabase.new Unit false)).2.2.2.2 overlongBuffer ⟨[]⟩ rfl rfl (by decide)
      (by decide) rfl (by decide)⟩

/-! ## The debug dump -/

end Valdi
